import Mathlib

/-!
# Verification development for `rich.cpp`

A shallow embedding of the seed-point generators, the `ZenoIntervals`
trigger and the `CraterSizeHistory` diagnostic of `rich.cpp`.

Modelling conventions.

* `double` values are elements of a linear ordered field `α` with exact
  arithmetic (`ℚ` for evaluation, `ℝ` for the analytic statements); rounding is
  not modelled, and the values read from the simulation state are finite.
* The one computation of the program that leaves the finite values on finite
  arguments, the local `entropy` of `CraterSizeHistory::operator()`, is carried out
  in `Double α`: a finite value, `+inf`, `-inf` or NaN (`log10(0) = -inf`,
  `log10(x) = NaN` for `x < 0`, `inf - inf = NaN`, every comparison with NaN false).
* The functions of `<cmath>` (`cos`, `sin`, `exp`, `log`, `log10`, `sqrt`) and
  the constant `M_PI` are parameters of the definitions that use them.
* `size_t` values are natural numbers below `SIZE_MOD = 2 ^ 64`; the one
  `size_t` increment of the program (`++counter_`) is taken modulo `SIZE_MOD`.
* `std::vector` is `List`; bounds-checked or out-of-range accesses return
  `Except.error Err.out_of_range`.
-/

namespace Rich

/-- Errors raised by checked element access (`vector::at`, mesh point lookup). -/
inductive Err where
  | out_of_range
deriving DecidableEq, Repr

/-- Number of values of `size_t`. -/
def SIZE_MOD : Nat := 2 ^ 64

/-- The type `Vector2D` of the tessellation library: a point of the plane. -/
structure Vector2D (α : Type) where
  x : α
  y : α
deriving DecidableEq, Repr

namespace Vector2D

variable {α : Type}

/-- The operator `Vector2D + Vector2D`. -/
def add [Add α] (a b : Vector2D α) : Vector2D α := ⟨a.x + b.x, a.y + b.y⟩

/-- The operator `Vector2D - Vector2D`. -/
def sub [Sub α] (a b : Vector2D α) : Vector2D α := ⟨a.x - b.x, a.y - b.y⟩

/-- The operator `double * Vector2D`. -/
def smul [Mul α] (d : α) (v : Vector2D α) : Vector2D α := ⟨d * v.x, d * v.y⟩

/-- The function `abs(Vector2D)`: the Euclidean norm, `sqrt` being that of `<cmath>`. -/
def abs [Add α] [Mul α] (sqrt : α → α) (v : Vector2D α) : α :=
  sqrt (v.x * v.x + v.y * v.y)

end Vector2D

/-- The fields of `ComputationalCell` that `rich.cpp` reads. -/
structure ComputationalCell (α : Type) where
  density : α
  pressure : α
  velocity : Vector2D α
deriving DecidableEq, Repr

/-- The read-only view of `hdsim` used by the diagnostics: `getAllCells()`,
the mesh points of `getTessellation()`, `getTime()` and `getCycle()`. -/
structure hdsim (α : Type) where
  cells : List (ComputationalCell α)
  tess : List (Vector2D α)
  time : α
  cycle : Nat

/-- The call `tess.GetMeshPoint(static_cast<int>(i))`: the `i`-th mesh point, an
error outside the tessellation. -/
def GetMeshPoint {α : Type} (tess : List (Vector2D α)) (i : Nat) : Except Err (Vector2D α) :=
  match tess[i]? with
  | some r => .ok r
  | none => .error .out_of_range

/-- The call `cells.at(i)`. -/
def at_ {β : Type} (v : List β) (i : Nat) : Except Err β :=
  match v[i]? with
  | some c => .ok c
  | none => .error .out_of_range

/-! ## `ZenoIntervals` -/

/-- The data members of `ZenoIntervals`. -/
structure ZenoIntervals (α : Type) where
  gen_ : Nat
  q_ : α
  p_thres_ : α
  initial_sep_ : α
  counter_ : Nat
deriving DecidableEq, Repr

namespace ZenoIntervals

variable {α : Type} [LinearOrderedField α]

/-- The constructor `ZenoIntervals(gen, q, p_thres, initial_sep)`; `counter_()` is zero. -/
def mk_ (gen : Nat) (q p_thres initial_sep : α) : ZenoIntervals α :=
  { gen_ := gen, q_ := q, p_thres_ := p_thres, initial_sep_ := initial_sep, counter_ := 0 }

/-- The `for` loop of `ZenoIntervals::operator()` from index `i` on, `cells` being
the cells not yet visited. -/
def scan (z : ZenoIntervals α) (len : α) (tess : List (Vector2D α)) :
    List (ComputationalCell α) → Nat → Except Err (Bool × ZenoIntervals α)
  | [], _ => .ok (false, z)
  | cell :: rest, i =>
    match GetMeshPoint tess i with
    | .error e => .error e
    | .ok r =>
      if cell.pressure > z.p_thres_ ∧ (-r.y) < len then
        .ok (true, { z with counter_ := (z.counter_ + 1) % SIZE_MOD })
      else
        scan z len tess rest (i + 1)

/-- The method `ZenoIntervals::operator()(const hdsim&)`: the returned boolean and the
trigger after the call. -/
def call (z : ZenoIntervals α) (sim : hdsim α) : Except Err (Bool × ZenoIntervals α) :=
  if z.counter_ > z.gen_ then
    .ok (false, z)
  else
    let len := z.initial_sep_ * z.q_ ^ z.counter_
    scan z len sim.tess sim.cells 0

end ZenoIntervals

namespace ZenoIntervals

variable {α : Type} [LinearOrderedField α]

/-- Successive invocations of `operator()` by the driver, one per simulation state of
the list: the returned booleans in call order and the trigger after the last call. -/
def calls (z : ZenoIntervals α) : List (hdsim α) → Except Err (List Bool × ZenoIntervals α)
  | [] => .ok ([], z)
  | sim :: rest =>
    match z.call sim with
    | .error e => .error e
    | .ok (b, z') =>
      match calls z' rest with
      | .error e => .error e
      | .ok (bs, z'') => .ok (b :: bs, z'')

/-- The trigger after a fire: only `counter_` is incremented, as a `size_t`. -/
def fired (z : ZenoIntervals α) : ZenoIntervals α :=
  { z with counter_ := (z.counter_ + 1) % SIZE_MOD }

end ZenoIntervals

/-! ## `double` with its special values -/

/-- A `double` as the arithmetic of the program produces it from finite arguments: a
finite value, `+inf`, `-inf` or NaN. -/
inductive Double (α : Type) where
  | finite (x : α)
  | posInf
  | negInf
  | nan
deriving DecidableEq, Repr

namespace Double

variable {α : Type} [LinearOrderedField α]

/-- The call `log10(x)` of `<cmath>` on a finite `x`: the value `lg x` for `x > 0`
(`lg` being the logarithm on the positive values), `-inf` for `x = 0`, NaN for `x < 0`. -/
def log10 (lg : α → α) (x : α) : Double α :=
  if 0 < x then finite (lg x) else if x = 0 then negInf else nan

/-- The product `k * d` of a finite `k` and a `double`. -/
def scale (k : α) : Double α → Double α
  | finite x => finite (k * x)
  | posInf => if 0 < k then posInf else if k < 0 then negInf else nan
  | negInf => if 0 < k then negInf else if k < 0 then posInf else nan
  | nan => nan

/-- The difference `a - b` of two `double`s. -/
def sub : Double α → Double α → Double α
  | finite x, finite y => finite (x - y)
  | finite _, posInf => negInf
  | finite _, negInf => posInf
  | posInf, finite _ => posInf
  | posInf, negInf => posInf
  | posInf, posInf => nan
  | negInf, finite _ => negInf
  | negInf, posInf => negInf
  | negInf, negInf => nan
  | nan, _ => nan
  | finite _, nan => nan
  | posInf, nan => nan
  | negInf, nan => nan

/-- The comparison `d < 0`; false for NaN. -/
def ltZero : Double α → Bool
  | finite x => decide (x < 0)
  | posInf => false
  | negInf => true
  | nan => false

/-- The comparison `d >= 0`; false for NaN. -/
def geZero : Double α → Bool
  | finite x => decide (0 ≤ x)
  | posInf => true
  | negInf => false
  | nan => false

/-- Whether the `double` is NaN. -/
def isNaN : Double α → Bool
  | nan => true
  | _ => false

end Double

/-! ## `CraterSizeHistory` -/

/-- The data members of `CraterSizeHistory`. -/
structure CraterSizeHistory (α : Type) where
  fname_ : String
  r_list_ : List α
  v_list_ : List α
  t_list_ : List α
  x_list_ : List α
  y_list_ : List α

namespace CraterSizeHistory

variable {α : Type} [LinearOrderedField α]

/-- The constructor `CraterSizeHistory(fname)`: all five buffers are empty. -/
def mk_ (fname : String) : CraterSizeHistory α :=
  { fname_ := fname, r_list_ := [], v_list_ := [], t_list_ := [], x_list_ := [], y_list_ := [] }

/-- The local `entropy` of `operator()`: `log10(pressure) - (5./3.)*log10(density)`,
`log10` being that of `<cmath>` on the positive values; the result is NaN when the
pressure or the density is negative or both are zero. -/
def entropy (log10 : α → α) (cell : ComputationalCell α) : Double α :=
  Double.sub (Double.log10 log10 cell.pressure)
    (Double.scale (5 / 3) (Double.log10 log10 cell.density))

/-- The `for` loop of `CraterSizeHistory::operator()` from index `i` on, `cells` being
the cells not yet visited; the result is the final `(idx, min_y)`. -/
def loop (log10 : α → α) (tess : List (Vector2D α)) :
    List (ComputationalCell α) → Nat → Nat → α → Except Err (Nat × α)
  | [], _, idx, min_y => .ok (idx, min_y)
  | cell :: rest, i, idx, min_y =>
    match GetMeshPoint tess i with
    | .error e => .error e
    | .ok r =>
      if r.y > min_y then
        loop log10 tess rest (i + 1) idx min_y
      else if (entropy log10 cell).ltZero then
        loop log10 tess rest (i + 1) idx min_y
      else
        loop log10 tess rest (i + 1) i r.y

/-- The five `push_back` calls that end `operator()`, for mesh point `r`,
cell `cell` and time `t`. -/
def record (sqrt : α → α) (h : CraterSizeHistory α) (r : Vector2D α)
    (cell : ComputationalCell α) (t : α) : CraterSizeHistory α :=
  { h with
    r_list_ := h.r_list_ ++ [Vector2D.abs sqrt r]
    v_list_ := h.v_list_ ++ [Vector2D.abs sqrt cell.velocity]
    x_list_ := h.x_list_ ++ [r.x]
    y_list_ := h.y_list_ ++ [r.y]
    t_list_ := h.t_list_ ++ [t] }

/-- The method `CraterSizeHistory::operator()(const hdsim&)`: the diagnostic after the call. -/
def call (log10 sqrt : α → α) (h : CraterSizeHistory α) (sim : hdsim α) :
    Except Err (CraterSizeHistory α) :=
  match loop log10 sim.tess sim.cells 0 0 0 with
  | .error e => .error e
  | .ok (idx, _) =>
    match GetMeshPoint sim.tess idx with
    | .error e => .error e
    | .ok r =>
      match at_ sim.cells idx with
      | .error e => .error e
      | .ok cell => .ok (record sqrt h r cell sim.time)

/-- Successive invocations of `operator()` by the driver, one per simulation state of
the list. -/
def calls (log10 sqrt : α → α) (h : CraterSizeHistory α) :
    List (hdsim α) → Except Err (CraterSizeHistory α)
  | [] => .ok h
  | sim :: rest =>
    match call log10 sqrt h sim with
    | .error e => .error e
    | .ok h' => calls log10 sqrt h' rest

end CraterSizeHistory

namespace CraterSizeHistory

variable {α : Type} [LinearOrderedField α]

/-- The method `CraterSizeHistory::operator()` as a transition of the diagnostic object:
the outcome (normal return or the exception thrown) together with the object after
the call. The five `push_back` calls are the last statements, after both element
accesses. -/
def invoke (log10 sqrt : α → α) (h : CraterSizeHistory α) (sim : hdsim α) :
    Except Err Unit × CraterSizeHistory α :=
  match loop log10 sim.tess sim.cells 0 0 0 with
  | .error e => (.error e, h)
  | .ok (idx, _) =>
    match GetMeshPoint sim.tess idx with
    | .error e => (.error e, h)
    | .ok r =>
      match at_ sim.cells idx with
      | .error e => (.error e, h)
      | .ok cell => (.ok (), record sqrt h r cell sim.time)

/-- The line written by the destructor for index `i`: the values
`t_list_.at(i)`, `r_list_.at(i)`, `v_list_.at(i)`, `x_list_.at(i)`, `y_list_.at(i)`,
in this order. -/
def line (h : CraterSizeHistory α) (i : Nat) : Except Err (List α) :=
  match at_ h.t_list_ i with
  | .error e => .error e
  | .ok t =>
    match at_ h.r_list_ i with
    | .error e => .error e
    | .ok r =>
      match at_ h.v_list_ i with
      | .error e => .error e
      | .ok v =>
        match at_ h.x_list_ i with
        | .error e => .error e
        | .ok x =>
          match at_ h.y_list_ i with
          | .error e => .error e
          | .ok y => .ok [t, r, v, x, y]

/-- The `for` loop of `~CraterSizeHistory` over the indices still to be written. -/
def flushLoop (h : CraterSizeHistory α) : List Nat → Except Err (List (List α))
  | [] => .ok []
  | i :: rest =>
    match line h i with
    | .error e => .error e
    | .ok l =>
      match flushLoop h rest with
      | .error e => .error e
      | .ok ls => .ok (l :: ls)

/-- The destructor `~CraterSizeHistory`, as the list of the lines written to the file
`fname_`, one per index `i < r_list_.size()`; a line is the list of its five values. -/
def flush (h : CraterSizeHistory α) : Except Err (List (List α)) :=
  flushLoop h (List.range h.r_list_.length)

end CraterSizeHistory

/-! ## Seed-point generators -/

section Generators

variable {α : Type} [LinearOrderedField α] [FloorRing α]

/-- Modelled from the spec: `arange(x_min, x_max, dx)` of the RICH library
(`source/misc`), whose source is not part of this program. It is the half-open
sequence `x_min, x_min + dx, x_min + 2 dx, …` of all terms strictly below `x_max`;
for `dx > 0` there are `⌈(x_max - x_min) / dx⌉` of them (none when `x_max ≤ x_min`).
The spec does not say what `arange` does for `dx ≤ 0`, and no theorem below relies on
the value of this definition there. -/
def arange (x_min x_max dx : α) : List α :=
  (List.range ⌈(x_max - x_min) / dx⌉₊).map fun (k : Nat) => x_min + (k : α) * dx

/-- Modelled from the spec: `join` of the RICH library, the concatenation of two vectors. -/
def join {β : Type} (a b : List β) : List β := a ++ b

/-- The function `centered_hexagonal_grid(r_min, r_max)`; `cos`, `sin` and `pi` are
`cos`, `sin` and `M_PI` of `<cmath>`. -/
def centered_hexagonal_grid (cos sin : α → α) (pi : α) (r_min r_max : α) :
    List (Vector2D α) :=
  let r_list := arange 0 r_max r_min
  r_list.enum.flatMap fun (i, r) =>
    let angle_num := max (6 * i) 1
    let angle_list :=
      (List.range angle_num).map fun (j : Nat) => 2 * pi * (j : α) / (angle_num : α)
    angle_list.map fun a => Vector2D.smul r ⟨cos a, sin a⟩

/-- The function `centered_logarithmic_spiral(r_min, r_max, alpha, center)`. -/
def centered_logarithmic_spiral (log exp cos sin : α → α) (pi : α)
    (r_min r_max alpha : α) (center : Vector2D α) : List (Vector2D α) :=
  let theta_max := log (r_max / r_min) / alpha
  let theta_list := arange 0 theta_max (2 * pi * alpha / (1 - 0.5 * alpha))
  let r_list := theta_list.map fun theta => r_min * exp (alpha * theta)
  (r_list.zip theta_list).map fun (r, theta) =>
    Vector2D.add center (Vector2D.smul r ⟨cos theta, sin theta⟩)

/-- The function `complete_grid(r_inner, r_outer, alpha)`. -/
def complete_grid (log exp cos sin : α → α) (pi : α) (r_inner r_outer alpha : α) :
    List (Vector2D α) :=
  let inner := centered_hexagonal_grid cos sin pi (r_inner * alpha * 2 * pi) r_inner
  let outer := centered_logarithmic_spiral log exp cos sin pi r_inner r_outer alpha ⟨0, 0⟩
  join inner outer

end Generators

/-! ## `SimData` -/

section SimDataDefs

variable {α : Type} [LinearOrderedField α] [FloorRing α]

/-- Modelled from the spec: `clip_grid(shape, grid)` of the RICH library, which restricts
a point set to the points of `shape`; `shape` is the membership test. -/
def clip_grid (shape : Vector2D α → Bool) (grid : List (Vector2D α)) : List (Vector2D α) :=
  grid.filter shape

/-- The member `width_` of `SimData`, initialised to `2`. -/
def SimData.width_ : α := 2

/-- The member initialiser of `init_points_` in the constructor of `SimData` without
`RICH_MPI`. `RightRectangle lower_left upper_right` is the membership test of the
rectangle of the RICH library with these two corners. -/
def SimData.init_points (RightRectangle : Vector2D α → Vector2D α → Vector2D α → Bool)
    (log exp cos sin : α → α) (pi : α) : List (Vector2D α) :=
  clip_grid
    (RightRectangle ⟨-SimData.width_, -SimData.width_⟩ ⟨SimData.width_, SimData.width_⟩)
    (complete_grid log exp cos sin pi 0.1 (2 * SimData.width_) 0.005)

end SimDataDefs

/-! ## Concrete inputs -/

/-- The trigger constructed in `main`: `ZenoIntervals(20, 0.8, 1e-5, 1)`. -/
def mainTrigger : ZenoIntervals ℚ := ZenoIntervals.mk_ 20 (4 / 5) (1 / 100000) 1

/-- A simulation state with one cell of pressure `2` at the mesh point `(0, 0)`. -/
def shallowCellSim : hdsim ℚ :=
  { cells := [⟨1, 2, ⟨0, 0⟩⟩], tess := [⟨0, 0⟩], time := 0, cycle := 0 }

/-- A stand-in for `log10` on `ℚ` for evaluation: like `log10` it is increasing and
vanishes at `1`. -/
def linLog (x : ℚ) : ℚ := x - 1

/-- A state with a cell at depth `1` of negative entropy (`linLog 1 - 5/3 * linLog 2`)
followed by a cell at depth `2` of entropy `linLog 2 - 5/3 * linLog 1 = 1`. -/
def twoCellSim : hdsim ℚ :=
  { cells := [⟨2, 1, ⟨0, 0⟩⟩, ⟨1, 2, ⟨3, 4⟩⟩], tess := [⟨0, -1⟩, ⟨0, -2⟩], time := 7, cycle := 1 }

/-- A state without qualifying cell: the first cell lies above the reference line, the
second has negative entropy. -/
def noQualifyingSim : hdsim ℚ :=
  { cells := [⟨1, 2, ⟨3, 4⟩⟩, ⟨2, 1, ⟨0, 0⟩⟩], tess := [⟨1, 3⟩, ⟨0, -1⟩], time := 7, cycle := 1 }

/-- A state with one cell of pressure `2` at the mesh point `(0, 1)`, above the
reference line. -/
def aboveLineSim : hdsim ℚ :=
  { cells := [⟨1, 2, ⟨0, 0⟩⟩], tess := [⟨0, 1⟩], time := 0, cycle := 0 }

/-! ## Theorems: `ZenoIntervals` -/

namespace ZenoIntervals

variable {α : Type} [LinearOrderedField α]

theorem scan_spec (z : ZenoIntervals α) (len : α) (tess : List (Vector2D α)) :
    ∀ (cells : List (ComputationalCell α)) (i : Nat), i + cells.length ≤ tess.length →
      ∃ b : Bool, scan z len tess cells i = .ok (b, if b then z.fired else z) ∧
        (b = true ↔ ∃ j c r, cells[j]? = some c ∧ tess[i + j]? = some r ∧
          c.pressure > z.p_thres_ ∧ -r.y < len) := by
  intro cells
  induction cells with
  | nil => intro i _; exact ⟨false, by simp [scan], by simp⟩
  | cons cell rest ih =>
    intro i hlen
    have hi : i < tess.length := by simp at hlen; omega
    have hget : tess[i]? = some tess[i] := List.getElem?_eq_getElem hi
    by_cases hq : cell.pressure > z.p_thres_ ∧ -(tess[i]).y < len
    · refine ⟨true, ?_, ?_⟩
      · simp only [scan, GetMeshPoint, hget]
        rw [if_pos hq]; rfl
      · simp only [true_iff]
        exact ⟨0, cell, tess[i], by simp, by simp [hget], hq.1, hq.2⟩
    · obtain ⟨b, hb, hiff⟩ := ih (i + 1) (by simp at hlen; omega)
      refine ⟨b, ?_, ?_⟩
      · simp only [scan, GetMeshPoint, hget]
        rw [if_neg hq]; exact hb
      · rw [hiff]
        constructor
        · rintro ⟨j, c, r, hc, hr, hp⟩
          exact ⟨j + 1, c, r, by simpa using hc, by rw [← hr]; congr 1; omega, hp⟩
        · rintro ⟨j, c, r, hc, hr, hp⟩
          cases j with
          | zero =>
            exfalso
            simp at hc
            simp [hget] at hr
            subst hc; subst hr
            exact hq hp
          | succ j =>
            exact ⟨j, c, r, by simpa using hc, by rw [← hr]; congr 1; omega, hp⟩

theorem call_terminal (z : ZenoIntervals α) (h : z.counter_ > z.gen_) (sim : hdsim α) :
    z.call sim = .ok (false, z) := by
  simp [call, h]

theorem calls_terminal (z : ZenoIntervals α) (h : z.counter_ > z.gen_) :
    ∀ sims : List (hdsim α), z.calls sims = .ok (List.replicate sims.length false, z) := by
  intro sims
  induction sims with
  | nil => simp [calls]
  | cons sim rest ih => simp [calls, call_terminal z h, ih, List.replicate_succ]

theorem calls_append (z : ZenoIntervals α) (pre post : List (hdsim α))
    (bs : List Bool) (z1 : ZenoIntervals α) (h : z.calls pre = .ok (bs, z1)) :
    z.calls (pre ++ post) =
      match z1.calls post with
      | .error e => .error e
      | .ok (bs', z2) => .ok (bs ++ bs', z2) := by
  induction pre generalizing z bs with
  | nil =>
    simp [calls] at h
    obtain ⟨rfl, rfl⟩ := h
    simp
    cases z.calls post with
    | error e => rfl
    | ok p => rfl
  | cons sim rest ih =>
    simp only [calls, List.cons_append] at h ⊢
    cases hc : z.call sim with
    | error e => simp [hc] at h
    | ok p =>
      obtain ⟨b, z'⟩ := p
      simp only [hc] at h ⊢
      cases hr : calls z' rest with
      | error e => simp [hr] at h
      | ok p2 =>
        obtain ⟨bs2, z2⟩ := p2
        simp only [hr] at h
        simp at h
        obtain ⟨rfl, rfl⟩ := h
        rw [List.append_eq, ih z' bs2 hr]
        cases z2.calls post with
        | error e => rfl
        | ok p3 => rfl

end ZenoIntervals

namespace ZenoIntervals

variable {α : Type} [LinearOrderedField α]

theorem call_live (z : ZenoIntervals α) (sim : hdsim α)
    (hk : z.counter_ ≤ z.gen_) (hal : sim.cells.length = sim.tess.length) :
    ∃ b : Bool, z.call sim = .ok (b, if b then z.fired else z) ∧
      (b = true ↔ ∃ (i : Nat) (c : ComputationalCell α) (r : Vector2D α),
        sim.cells[i]? = some c ∧ sim.tess[i]? = some r ∧
        c.pressure > z.p_thres_ ∧ -r.y < z.initial_sep_ * z.q_ ^ z.counter_) := by
  obtain ⟨b, hb, hiff⟩ :=
    scan_spec z (z.initial_sep_ * z.q_ ^ z.counter_) sim.tess sim.cells 0 (by omega)
  refine ⟨b, ?_, by simpa using hiff⟩
  simp only [call, if_neg (Nat.not_lt.mpr hk)]
  exact hb

/-- C1 (amended): in a trigger state with `counter_ = k ≤ gen_`, on a simulation state
whose cells are index-aligned with the mesh points (possibly empty), `operator()`
returns `true` if and only if some cell `i` has `pressure_i > p_thres_` and
`-y_i < initial_sep_ * q_ ^ k`; when it returns `true` the counter becomes `k + 1`
as a `size_t`, that is `(k + 1) % 2 ^ 64`, which is exactly `k + 1` whenever
`k + 1 < 2 ^ 64`; when it returns `false` the counter stays `k`; `gen_`, `q_`,
`p_thres_` and `initial_sep_` are never changed. -/
theorem call_transition (z : ZenoIntervals α) (sim : hdsim α)
    (hk : z.counter_ ≤ z.gen_) (hal : sim.cells.length = sim.tess.length) :
    ∃ (b : Bool) (z' : ZenoIntervals α), z.call sim = .ok (b, z') ∧
      (b = true ↔ ∃ (i : Nat) (c : ComputationalCell α) (r : Vector2D α),
        sim.cells[i]? = some c ∧ sim.tess[i]? = some r ∧
        c.pressure > z.p_thres_ ∧ -r.y < z.initial_sep_ * z.q_ ^ z.counter_) ∧
      (b = true → z'.counter_ = (z.counter_ + 1) % 2 ^ 64 ∧
        (z.counter_ + 1 < 2 ^ 64 → z'.counter_ = z.counter_ + 1)) ∧
      (b = false → z'.counter_ = z.counter_) ∧
      z'.gen_ = z.gen_ ∧ z'.q_ = z.q_ ∧ z'.p_thres_ = z.p_thres_ ∧
      z'.initial_sep_ = z.initial_sep_ := by
  obtain ⟨b, hb, hiff⟩ := call_live z sim hk hal
  refine ⟨b, if b then z.fired else z, hb, hiff, ?_, ?_, ?_⟩
  · intro h
    subst h
    refine ⟨rfl, fun hlt => ?_⟩
    simp only [fired, SIZE_MOD, if_true]
    exact Nat.mod_eq_of_lt hlt
  · intro h
    subst h
    rfl
  · cases b <;> simp [fired]

/-- Witness of `call_transition`: the trigger of `main` in its initial state on a
one-cell simulation state. -/
theorem call_transition_witness :
    mainTrigger.counter_ ≤ mainTrigger.gen_ ∧
    shallowCellSim.cells.length = shallowCellSim.tess.length ∧
    ∃ (b : Bool) (z' : ZenoIntervals ℚ), mainTrigger.call shallowCellSim = .ok (b, z') ∧
      (b = true → z'.counter_ = (mainTrigger.counter_ + 1) % 2 ^ 64) ∧
      (b = false → z'.counter_ = mainTrigger.counter_) ∧ z'.gen_ = mainTrigger.gen_ :=
  ⟨by decide, rfl,
    let ⟨b, z', h, _, ht, hf, hg, _⟩ :=
      call_transition mainTrigger shallowCellSim (by decide) rfl
    ⟨b, z', h, fun hb => (ht hb).1, hf, hg⟩⟩

/-- C1 as stated fails at `counter_ = gen_ = 2 ^ 64 - 1`: the counter is within the
generation limit, the cell qualifies and `operator()` returns `true`, but `++counter_`
wraps the `size_t` counter to `0`, which is not `counter_ + 1`. -/
theorem call_transition_counterexample :
    (⟨18446744073709551615, 1, 1, 1, 18446744073709551615⟩ : ZenoIntervals ℚ).counter_ ≤
      (⟨18446744073709551615, 1, 1, 1, 18446744073709551615⟩ : ZenoIntervals ℚ).gen_ ∧
    (⟨18446744073709551615, 1, 1, 1, 18446744073709551615⟩ : ZenoIntervals ℚ).call
        ⟨[⟨1, 2, ⟨0, 0⟩⟩], [⟨0, 0⟩], 0, 0⟩
      = .ok (true, ⟨18446744073709551615, 1, 1, 1, 0⟩) ∧
    (⟨18446744073709551615, 1, 1, 1, 0⟩ : ZenoIntervals ℚ).counter_ ≠
      (⟨18446744073709551615, 1, 1, 1, 18446744073709551615⟩ : ZenoIntervals ℚ).counter_ + 1 := by
  refine ⟨le_refl _, ?_, by decide⟩
  norm_num [call, scan, GetMeshPoint, SIZE_MOD]

/-- C2: in a trigger state whose counter exceeds `gen_`, `operator()` returns `false`
and leaves the trigger unchanged, for every simulation state; hence every later
invocation of a sequence returns `false` as well, also when the state was reached by
earlier invocations `pre` of a longer sequence. -/
theorem terminal_forever (z : ZenoIntervals α) (hk : z.counter_ > z.gen_) :
    (∀ sim : hdsim α, z.call sim = .ok (false, z)) ∧
    (∀ sims : List (hdsim α), z.calls sims = .ok (List.replicate sims.length false, z)) ∧
    (∀ (z0 : ZenoIntervals α) (pre post : List (hdsim α)) (bs : List Bool),
      z0.calls pre = .ok (bs, z) →
      z0.calls (pre ++ post) = .ok (bs ++ List.replicate post.length false, z)) := by
  refine ⟨call_terminal z hk, calls_terminal z hk, ?_⟩
  intro z0 pre post bs h
  rw [calls_append z0 pre post bs z h, calls_terminal z hk post]

/-- Witness of `terminal_forever`: the trigger of `main` once its counter is `21`. -/
theorem terminal_forever_witness :
    (⟨20, 4 / 5, 1 / 100000, 1, 21⟩ : ZenoIntervals ℚ).counter_ >
      (⟨20, 4 / 5, 1 / 100000, 1, 21⟩ : ZenoIntervals ℚ).gen_ ∧
    (⟨20, 4 / 5, 1 / 100000, 1, 21⟩ : ZenoIntervals ℚ).calls
        [shallowCellSim, shallowCellSim] =
      .ok ([false, false], ⟨20, 4 / 5, 1 / 100000, 1, 21⟩) :=
  ⟨by decide,
    (terminal_forever (⟨20, 4 / 5, 1 / 100000, 1, 21⟩ : ZenoIntervals ℚ) (by decide)).2.1
      [shallowCellSim, shallowCellSim]⟩

/-- C3 (amended): for the trigger `ZenoIntervals(2, 0.5, 1, 1)`, a first invocation on a
state with a cell of pressure `> 1` and depth `-y < 1` returns `true` and the counter
becomes `1`; a second invocation on a state with a cell of pressure `> 1` and depth
`< 0.5` returns `true` and the counter becomes `2`; a third invocation is still live
(`2 > 2` is false): it returns `true` exactly when its state has a cell of pressure `> 1`
and depth `< 0.25`, the counter then being `3`, and otherwise leaves the trigger as it
is; once the counter is `3`, every invocation returns `false` for every state. -/
theorem scenario_limit_two (sim1 sim2 : hdsim α)
    (hal1 : sim1.cells.length = sim1.tess.length)
    (hal2 : sim2.cells.length = sim2.tess.length)
    (h1 : ∃ (i : Nat) (c : ComputationalCell α) (r : Vector2D α),
      sim1.cells[i]? = some c ∧ sim1.tess[i]? = some r ∧ c.pressure > 1 ∧ -r.y < 1)
    (h2 : ∃ (i : Nat) (c : ComputationalCell α) (r : Vector2D α),
      sim2.cells[i]? = some c ∧ sim2.tess[i]? = some r ∧ c.pressure > 1 ∧ -r.y < 1 / 2) :
    (mk_ 2 (1 / 2 : α) 1 1).call sim1 = .ok (true, ⟨2, 1 / 2, 1, 1, 1⟩) ∧
    (⟨2, 1 / 2, 1, 1, 1⟩ : ZenoIntervals α).call sim2 = .ok (true, ⟨2, 1 / 2, 1, 1, 2⟩) ∧
    (∀ sim3 : hdsim α, sim3.cells.length = sim3.tess.length →
      ∃ b : Bool,
        (⟨2, 1 / 2, 1, 1, 2⟩ : ZenoIntervals α).call sim3 =
          .ok (b, if b then ⟨2, 1 / 2, 1, 1, 3⟩ else ⟨2, 1 / 2, 1, 1, 2⟩) ∧
        (b = true ↔ ∃ (i : Nat) (c : ComputationalCell α) (r : Vector2D α),
          sim3.cells[i]? = some c ∧ sim3.tess[i]? = some r ∧
          c.pressure > 1 ∧ -r.y < 1 / 4)) ∧
    (∀ sims : List (hdsim α), (⟨2, 1 / 2, 1, 1, 3⟩ : ZenoIntervals α).calls sims =
      .ok (List.replicate sims.length false, ⟨2, 1 / 2, 1, 1, 3⟩)) := by
  refine ⟨?_, ?_, ?_, ?_⟩
  · obtain ⟨b, hb, hiff⟩ := call_live (mk_ 2 (1 / 2 : α) 1 1) sim1 (by simp [mk_]) hal1
    have : b = true := hiff.mpr (by simpa [mk_] using h1)
    subst this
    simpa [fired, mk_, SIZE_MOD] using hb
  · obtain ⟨b, hb, hiff⟩ :=
      call_live (⟨2, 1 / 2, 1, 1, 1⟩ : ZenoIntervals α) sim2 (by simp) hal2
    have : b = true := hiff.mpr (by simpa using h2)
    subst this
    simpa [fired, SIZE_MOD] using hb
  · intro sim3 hal3
    obtain ⟨b, hb, hiff⟩ :=
      call_live (⟨2, 1 / 2, 1, 1, 2⟩ : ZenoIntervals α) sim3 (by simp) hal3
    refine ⟨b, ?_, ?_⟩
    · cases b <;> simpa [fired, SIZE_MOD] using hb
    · rw [hiff]
      norm_num
  · exact calls_terminal _ (by simp)

/-- Witness of `scenario_limit_two`: both invocations see the one-cell state
`shallowCellSim` (pressure `2`, depth `0`). -/
theorem scenario_limit_two_witness :
    shallowCellSim.cells.length = shallowCellSim.tess.length ∧
    (∃ (i : Nat) (c : ComputationalCell ℚ) (r : Vector2D ℚ),
      shallowCellSim.cells[i]? = some c ∧ shallowCellSim.tess[i]? = some r ∧
      c.pressure > 1 ∧ -r.y < 1 / 2) ∧
    (mk_ 2 (1 / 2 : ℚ) 1 1).call shallowCellSim = .ok (true, ⟨2, 1 / 2, 1, 1, 1⟩) ∧
    (⟨2, 1 / 2, 1, 1, 1⟩ : ZenoIntervals ℚ).call shallowCellSim =
      .ok (true, ⟨2, 1 / 2, 1, 1, 2⟩) :=
  have hq : ∃ (i : Nat) (c : ComputationalCell ℚ) (r : Vector2D ℚ),
      shallowCellSim.cells[i]? = some c ∧ shallowCellSim.tess[i]? = some r ∧
      c.pressure > 1 ∧ -r.y < 1 / 2 :=
    ⟨0, ⟨1, 2, ⟨0, 0⟩⟩, ⟨0, 0⟩, rfl, rfl, by norm_num, by norm_num⟩
  have hq1 : ∃ (i : Nat) (c : ComputationalCell ℚ) (r : Vector2D ℚ),
      shallowCellSim.cells[i]? = some c ∧ shallowCellSim.tess[i]? = some r ∧
      c.pressure > 1 ∧ -r.y < 1 :=
    ⟨0, ⟨1, 2, ⟨0, 0⟩⟩, ⟨0, 0⟩, rfl, rfl, by norm_num, by norm_num⟩
  have h := scenario_limit_two shallowCellSim shallowCellSim rfl rfl hq1 hq
  ⟨rfl, hq, h.1, h.2.1⟩

/-- C3 as stated fails: after the two fires of the scenario the counter is `2`, which
does not exceed the limit `2`, and a third invocation on a state with a cell of
pressure `2 > 1` and depth `0` returns `true` (the counter becomes `3`). -/
theorem scenario_limit_two_counterexample :
    (mk_ 2 (1 / 2 : ℚ) 1 1).calls
        [⟨[⟨1, 2, ⟨0, 0⟩⟩], [⟨0, 0⟩], 0, 0⟩,
         ⟨[⟨1, 2, ⟨0, 0⟩⟩], [⟨0, 0⟩], 0, 0⟩,
         ⟨[⟨1, 2, ⟨0, 0⟩⟩], [⟨0, 0⟩], 0, 0⟩] =
      .ok ([true, true, true], ⟨2, 1 / 2, 1, 1, 3⟩) ∧
    (⟨2, 1 / 2, 1, 1, 2⟩ : ZenoIntervals ℚ).call ⟨[⟨1, 2, ⟨0, 0⟩⟩], [⟨0, 0⟩], 0, 0⟩ =
      .ok (true, ⟨2, 1 / 2, 1, 1, 3⟩) := by
  constructor <;> norm_num [calls, call, mk_, scan, GetMeshPoint, SIZE_MOD]

end ZenoIntervals



/-! ## Theorems: `CraterSizeHistory` -/

namespace CraterSizeHistory

variable {α : Type} [LinearOrderedField α]

/-- The loop from index `i` on, entered with `(idx, min_y)`: either no remaining cell
passes both tests and `(idx, min_y)` is returned as it is, or the returned index is
that of a remaining cell passing both tests with the least `y` among them. -/
theorem loop_spec (log10 : α → α) (tess : List (Vector2D α)) :
    ∀ (cells : List (ComputationalCell α)) (i idx : Nat) (min_y : α),
      i + cells.length ≤ tess.length →
      ∃ (idx' : Nat) (min_y' : α), loop log10 tess cells i idx min_y = .ok (idx', min_y') ∧
        ((idx' = idx ∧ min_y' = min_y ∧
            ∀ (j : Nat) (c : ComputationalCell α) (r : Vector2D α),
              cells[j]? = some c → tess[i + j]? = some r →
              ¬ (r.y ≤ min_y ∧ (entropy log10 c).ltZero = false)) ∨
          (∃ (j : Nat) (c : ComputationalCell α) (r : Vector2D α),
            idx' = i + j ∧ cells[j]? = some c ∧ tess[i + j]? = some r ∧
            r.y ≤ min_y ∧ (entropy log10 c).ltZero = false ∧
            ∀ (j' : Nat) (c' : ComputationalCell α) (r' : Vector2D α),
              cells[j']? = some c' → tess[i + j']? = some r' →
              r'.y ≤ min_y → (entropy log10 c').ltZero = false → r.y ≤ r'.y)) := by
  intro cells
  induction cells with
  | nil =>
    intro i idx min_y _
    exact ⟨idx, min_y, rfl, Or.inl ⟨rfl, rfl, by simp⟩⟩
  | cons cell rest ih =>
    intro i idx min_y hlen
    have hi : i < tess.length := by simp at hlen; omega
    have hget : tess[i]? = some tess[i] := List.getElem?_eq_getElem hi
    have hlen' : i + 1 + rest.length ≤ tess.length := by simp at hlen; omega
    have hshift : ∀ j : Nat, tess[i + (j + 1)]? = tess[i + 1 + j]? := by
      intro j; congr 1; omega
    by_cases hskip : (tess[i]).y > min_y ∨ (entropy log10 cell).ltZero = true
    · -- the cell is skipped
      have hstep : loop log10 tess (cell :: rest) i idx min_y =
          loop log10 tess rest (i + 1) idx min_y := by
        simp only [loop, GetMeshPoint, hget]
        by_cases hy : (tess[i]).y > min_y
        · rw [if_pos hy]
        · rw [if_neg hy, if_pos (hskip.resolve_left hy)]
      have hno : ¬ ((tess[i]).y ≤ min_y ∧ (entropy log10 cell).ltZero = false) := by
        rintro ⟨h1, h2⟩
        rcases hskip with h | h
        · exact absurd h1 (not_le.mpr h)
        · rw [h] at h2
          exact absurd h2 (by simp)
      obtain ⟨idx', min_y', hrun, hcase⟩ := ih (i + 1) idx min_y hlen'
      refine ⟨idx', min_y', hstep.trans hrun, ?_⟩
      rcases hcase with ⟨h1, h2, hnone⟩ | ⟨j, c, r, hj, hc, hr, hy, he, hmin⟩
      · left
        refine ⟨h1, h2, ?_⟩
        intro j c r hc hr
        cases j with
        | zero =>
          simp at hc
          simp [hget] at hr
          subst hc; subst hr
          exact hno
        | succ j => exact hnone j c r (by simpa using hc) (by rw [← hshift]; exact hr)
      · right
        refine ⟨j + 1, c, r, by omega, by simpa using hc, by rw [hshift]; exact hr,
          hy, he, ?_⟩
        intro j' c' r' hc' hr' hy' he'
        cases j' with
        | zero =>
          simp at hc'
          simp [hget] at hr'
          subst hc'; subst hr'
          exact absurd ⟨hy', he'⟩ hno
        | succ j' =>
          exact hmin j' c' r' (by simpa using hc') (by rw [← hshift]; exact hr') hy' he'
    · -- the cell becomes the candidate
      have hy0 : (tess[i]).y ≤ min_y := not_lt.mp fun h => hskip (Or.inl h)
      have hnlt : ¬ (entropy log10 cell).ltZero = true := fun h => hskip (Or.inr h)
      have he0 : (entropy log10 cell).ltZero = false := by simpa using hnlt
      have hstep : loop log10 tess (cell :: rest) i idx min_y =
          loop log10 tess rest (i + 1) i (tess[i]).y := by
        simp only [loop, GetMeshPoint, hget]
        rw [if_neg (not_lt.mpr hy0), if_neg hnlt]
      obtain ⟨idx', min_y', hrun, hcase⟩ := ih (i + 1) i (tess[i]).y hlen'
      refine ⟨idx', min_y', hstep.trans hrun, Or.inr ?_⟩
      rcases hcase with ⟨h1, _, hnone⟩ | ⟨j, c, r, hj, hc, hr, hy, he, hmin⟩
      · refine ⟨0, cell, tess[i], by omega, by simp, by simp [hget], hy0, he0, ?_⟩
        intro j' c' r' hc' hr' _ he'
        cases j' with
        | zero =>
          simp [hget] at hr'
          subst hr'
          exact le_refl _
        | succ j' =>
          have := hnone j' c' r' (by simpa using hc') (by rw [← hshift]; exact hr')
          by_contra hlt
          exact this ⟨le_of_lt (not_le.mp hlt), he'⟩
      · refine ⟨j + 1, c, r, by omega, by simpa using hc, by rw [hshift]; exact hr,
          le_trans hy hy0, he, ?_⟩
        intro j' c' r' hc' hr' _ he'
        cases j' with
        | zero =>
          simp [hget] at hr'
          subst hr'
          exact hy
        | succ j' =>
          by_cases hle : r'.y ≤ (tess[i]).y
          · exact hmin j' c' r' (by simpa using hc') (by rw [← hshift]; exact hr') hle he'
          · exact le_trans hy (le_of_lt (not_le.mp hle))

/-- One invocation on a non-empty, index-aligned state records the cell of the index
chosen by the loop: index `0` when no cell passes both tests, otherwise a cell passing
both tests with the least `y` among those. -/
theorem call_spec (log10 sqrt : α → α) (h : CraterSizeHistory α) (sim : hdsim α)
    (hal : sim.cells.length = sim.tess.length) (hne : sim.cells ≠ []) :
    ∃ (i : Nat) (c : ComputationalCell α) (r : Vector2D α),
      sim.cells[i]? = some c ∧ sim.tess[i]? = some r ∧
      call log10 sqrt h sim = .ok (record sqrt h r c sim.time) ∧
      ((i = 0 ∧ ∀ (j : Nat) (c' : ComputationalCell α) (r' : Vector2D α),
          sim.cells[j]? = some c' → sim.tess[j]? = some r' →
          ¬ (r'.y ≤ 0 ∧ (entropy log10 c').ltZero = false)) ∨
        (r.y ≤ 0 ∧ (entropy log10 c).ltZero = false ∧
          ∀ (j : Nat) (c' : ComputationalCell α) (r' : Vector2D α),
            sim.cells[j]? = some c' → sim.tess[j]? = some r' →
            r'.y ≤ 0 → (entropy log10 c').ltZero = false → r.y ≤ r'.y)) := by
  obtain ⟨idx', min_y', hrun, hcase⟩ :=
    loop_spec log10 sim.tess sim.cells 0 0 0 (by omega)
  have hpos : 0 < sim.cells.length := List.length_pos.mpr hne
  have key : ∀ (i : Nat) (c : ComputationalCell α) (r : Vector2D α), idx' = i →
      sim.cells[i]? = some c → sim.tess[i]? = some r →
      call log10 sqrt h sim = .ok (record sqrt h r c sim.time) := by
    intro i c r hi hc hr
    subst hi
    simp only [call, hrun, GetMeshPoint, at_, hr, hc]
  rcases hcase with ⟨h1, _, hnone⟩ | ⟨j, c, r, hj, hc, hr, hy, he, hmin⟩
  · have hc : sim.cells[0]? = some sim.cells[0] := List.getElem?_eq_getElem hpos
    have hpos2 : 0 < sim.tess.length := hal ▸ hpos
    have hr : sim.tess[0]? = some sim.tess[0] := List.getElem?_eq_getElem hpos2
    refine ⟨0, _, _, hc, hr, key 0 _ _ h1 hc hr, Or.inl ⟨rfl, ?_⟩⟩
    intro j c' r' hc' hr'
    exact hnone j c' r' hc' (by simpa using hr')
  · simp only [Nat.zero_add] at hj hr
    refine ⟨j, c, r, hc, hr, key j c r hj hc hr, Or.inr ⟨hy, he, ?_⟩⟩
    intro j' c' r' hc' hr'
    exact hmin j' c' r' hc' (by simpa using hr')

/-- The test `entropy < 0` is false exactly for a `double` that is `>= 0` or NaN. -/
theorem ltZero_eq_false_iff (d : Double α) :
    d.ltZero = false ↔ (d.geZero = true ∨ d.isNaN = true) := by
  cases d <;> simp [Double.ltZero, Double.geZero, Double.isNaN]

/-- For a positive pressure and density the entropy is the finite value
`log10(pressure) - 5/3 * log10(density)`. -/
theorem entropy_of_pos (log10 : α → α) (c : ComputationalCell α)
    (hp : 0 < c.pressure) (hd : 0 < c.density) :
    entropy log10 c = .finite (log10 c.pressure - 5 / 3 * log10 c.density) := by
  simp [entropy, Double.log10, Double.scale, Double.sub, hp, hd]

/-- The entropy is NaN exactly when the pressure or the density is negative or both
are zero. -/
theorem entropy_isNaN_iff (log10 : α → α) (c : ComputationalCell α) :
    (entropy log10 c).isNaN = true ↔
      (c.pressure < 0 ∨ c.density < 0 ∨ (c.pressure = 0 ∧ c.density = 0)) := by
  have h53 : (0 : α) < 5 / 3 := by norm_num
  rcases lt_trichotomy c.pressure 0 with hp | hp | hp <;>
    rcases lt_trichotomy c.density 0 with hd | hd | hd
  · simp [entropy, Double.log10, Double.scale, Double.sub, Double.isNaN, hp, hd,
      not_lt.mpr hp.le, not_lt.mpr hd.le, hp.ne, hd.ne]
  · simp [entropy, Double.log10, Double.scale, Double.sub, Double.isNaN, hp, hd,
      not_lt.mpr hp.le, hp.ne, h53]
  · simp [entropy, Double.log10, Double.scale, Double.sub, Double.isNaN, hp, hd,
      not_lt.mpr hp.le, hp.ne]
  · simp [entropy, Double.log10, Double.scale, Double.sub, Double.isNaN, hp, hd,
      not_lt.mpr hd.le, hd.ne]
  · simp [entropy, Double.log10, Double.scale, Double.sub, Double.isNaN, hp, hd, h53]
  · simp [entropy, Double.log10, Double.scale, Double.sub, Double.isNaN, hp, hd,
      not_lt.mpr hd.le, hd.ne', not_lt.mpr (le_of_lt hd), hd.not_lt]
  · simp [entropy, Double.log10, Double.scale, Double.sub, Double.isNaN, hp, hd,
      not_lt.mpr hd.le, hd.ne, hp.not_lt, hp.ne']
  · simp [entropy, Double.log10, Double.scale, Double.sub, Double.isNaN, hp, hd, h53,
      hp.not_lt, hp.ne']
  · simp [entropy, Double.log10, Double.scale, Double.sub, Double.isNaN, hp, hd,
      hp.not_lt, hd.not_lt, hp.ne', hd.ne']

/-- C4 (amended): the loop skips a cell only when `y_i > min_y` or `entropy_i < 0`, so
call a cell selectable when `y_i ≤ 0` and the test `entropy_i < 0` is false, that is
when its entropy is `>= 0` or NaN (NaN exactly when the pressure or the density is
negative or both are zero; for a positive pressure and density the entropy is the
finite `log10(pressure_i) - (5/3) * log10(density_i)`). When at least one cell of an
index-aligned state is selectable, the invocation appends the single sample
`(time, |pos_i|, |velocity_i|, pos_i.x, pos_i.y)` of an index `i` that is selectable
and whose `y_i` is the minimum of `y` over all selectable cells; a cell with `y > 0`
or entropy `< 0` is never the recorded one. When no cell has a NaN entropy the
recorded cell has entropy `>= 0` and the least `y` among the cells with `y ≤ 0` and
entropy `>= 0`, as the claim says. -/
theorem deepest_qualifying_recorded (log10 sqrt : α → α) (h : CraterSizeHistory α)
    (sim : hdsim α) (hal : sim.cells.length = sim.tess.length)
    (hq : ∃ (i : Nat) (c : ComputationalCell α) (r : Vector2D α),
      sim.cells[i]? = some c ∧ sim.tess[i]? = some r ∧
      r.y ≤ 0 ∧ (entropy log10 c).ltZero = false) :
    (∀ c : ComputationalCell α, (entropy log10 c).ltZero = false ↔
      ((entropy log10 c).geZero = true ∨ (entropy log10 c).isNaN = true)) ∧
    (∀ c : ComputationalCell α, (entropy log10 c).isNaN = true ↔
      (c.pressure < 0 ∨ c.density < 0 ∨ (c.pressure = 0 ∧ c.density = 0))) ∧
    (∀ c : ComputationalCell α, 0 < c.pressure → 0 < c.density →
      entropy log10 c = .finite (log10 c.pressure - 5 / 3 * log10 c.density)) ∧
    ∃ (i : Nat) (c : ComputationalCell α) (r : Vector2D α),
      sim.cells[i]? = some c ∧ sim.tess[i]? = some r ∧
      r.y ≤ 0 ∧ (entropy log10 c).ltZero = false ∧
      (∀ (j : Nat) (c' : ComputationalCell α) (r' : Vector2D α),
        sim.cells[j]? = some c' → sim.tess[j]? = some r' →
        r'.y ≤ 0 → (entropy log10 c').ltZero = false → r.y ≤ r'.y) ∧
      call log10 sqrt h sim = .ok
        { fname_ := h.fname_
          t_list_ := h.t_list_ ++ [sim.time]
          r_list_ := h.r_list_ ++ [Vector2D.abs sqrt r]
          v_list_ := h.v_list_ ++ [Vector2D.abs sqrt c.velocity]
          x_list_ := h.x_list_ ++ [r.x]
          y_list_ := h.y_list_ ++ [r.y] } ∧
      ((∀ (j : Nat) (c' : ComputationalCell α), sim.cells[j]? = some c' →
          (entropy log10 c').isNaN = false) →
        (entropy log10 c).geZero = true ∧
        ∀ (j : Nat) (c' : ComputationalCell α) (r' : Vector2D α),
          sim.cells[j]? = some c' → sim.tess[j]? = some r' →
          r'.y ≤ 0 → (entropy log10 c').geZero = true → r.y ≤ r'.y) := by
  refine ⟨fun c => ltZero_eq_false_iff _, entropy_isNaN_iff log10,
    entropy_of_pos log10, ?_⟩
  have hne : sim.cells ≠ [] := by
    obtain ⟨i, c, _, hc, _⟩ := hq
    intro hnil
    simp [hnil] at hc
  obtain ⟨i, c, r, hc, hr, hcall, hcase⟩ := call_spec log10 sqrt h sim hal hne
  rcases hcase with ⟨_, hnone⟩ | ⟨hy, he, hmin⟩
  · obtain ⟨j, c', r', hc', hr', hy', he'⟩ := hq
    exact absurd ⟨hy', he'⟩ (hnone j c' r' hc' hr')
  · refine ⟨i, c, r, hc, hr, hy, he, hmin, hcall, ?_⟩
    intro hnonan
    constructor
    · rcases (ltZero_eq_false_iff _).mp he with hge | hnan
      · exact hge
      · rw [hnonan i c hc] at hnan
        exact absurd hnan (by simp)
    · intro j c' r' hc' hr' hy' hge'
      exact hmin j c' r' hc' hr' hy' ((ltZero_eq_false_iff _).mpr (Or.inl hge'))

/-- Witness of `deepest_qualifying_recorded`: in `twoCellSim` the cell at depth `1` has
negative entropy and the cell at depth `2` has entropy `1`; the recorded sample is that
of a selectable cell. -/
theorem deepest_qualifying_recorded_witness :
    twoCellSim.cells.length = twoCellSim.tess.length ∧
    ∃ (i : Nat) (c : ComputationalCell ℚ) (r : Vector2D ℚ),
      twoCellSim.cells[i]? = some c ∧ twoCellSim.tess[i]? = some r ∧
      r.y ≤ 0 ∧ (entropy linLog c).ltZero = false ∧
      call linLog (fun x => x) (mk_ "crater_size_history.txt") twoCellSim = .ok
        { fname_ := "crater_size_history.txt"
          t_list_ := [] ++ [twoCellSim.time]
          r_list_ := [] ++ [Vector2D.abs (fun x => x) r]
          v_list_ := [] ++ [Vector2D.abs (fun x => x) c.velocity]
          x_list_ := [] ++ [r.x]
          y_list_ := [] ++ [r.y] } :=
  ⟨rfl,
    let ⟨i, c, r, hc, hr, hy, he, _, hcall, _⟩ :=
      (deepest_qualifying_recorded linLog (fun x => x) (mk_ "crater_size_history.txt")
        twoCellSim rfl
        ⟨1, ⟨1, 2, ⟨3, 4⟩⟩, ⟨0, -2⟩, rfl, rfl, by norm_num,
          by norm_num [entropy, Double.log10, Double.scale, Double.sub, Double.ltZero,
            linLog]⟩).2.2.2
    ⟨i, c, r, hc, hr, hy, he, hcall⟩⟩

/-- C4 as stated fails, with the real `log10` and `sqrt`, on the state with a first
cell of pressure `1` and density `1` at depth `1` (entropy `0`, so it qualifies) and a
second cell of pressure `0` and density `0` at depth `2`: the entropy of the second
cell is `-inf - (5/3) * (-inf)`, NaN, the test `entropy < 0` is false, and the sample of
the second cell, which does not have entropy `>= 0`, is recorded. -/
theorem deepest_qualifying_recorded_counterexample :
    (entropy (Real.logb 10) (⟨1, 1, ⟨0, 0⟩⟩ : ComputationalCell ℝ)).geZero = true ∧
    (entropy (Real.logb 10) (⟨0, 0, ⟨0, 0⟩⟩ : ComputationalCell ℝ)).geZero = false ∧
    call (Real.logb 10) Real.sqrt (mk_ "crater_size_history.txt")
        (⟨[⟨1, 1, ⟨0, 0⟩⟩, ⟨0, 0, ⟨0, 0⟩⟩], [⟨0, -1⟩, ⟨0, -2⟩], 7, 1⟩ : hdsim ℝ) =
      .ok { fname_ := "crater_size_history.txt"
            t_list_ := [7]
            r_list_ := [Real.sqrt (0 * 0 + -2 * -2)]
            v_list_ := [Real.sqrt (0 * 0 + 0 * 0)]
            x_list_ := [0]
            y_list_ := [-2] } := by
  have hent0 : entropy (Real.logb 10) (⟨1, 1, ⟨0, 0⟩⟩ : ComputationalCell ℝ) =
      .finite 0 := by
    rw [entropy_of_pos _ _ (by norm_num) (by norm_num)]
    simp
  have hent1 : entropy (Real.logb 10) (⟨0, 0, ⟨0, 0⟩⟩ : ComputationalCell ℝ) = .nan := by
    have h53 : (0 : ℝ) < 5 / 3 := by norm_num
    simp [entropy, Double.log10, Double.scale, Double.sub, h53]
  refine ⟨by simp [hent0, Double.geZero], by simp [hent1, Double.geZero], ?_⟩
  have h1 : ¬ ((-1 : ℝ) > 0) := by norm_num
  have h2 : ¬ ((-2 : ℝ) > -1) := by norm_num
  simp only [call, loop, GetMeshPoint, at_, record, mk_, Vector2D.abs,
    List.getElem?_cons_zero, List.getElem?_cons_succ, if_neg h1, if_neg h2, hent0, hent1,
    Double.ltZero, lt_self_iff_false, decide_False, Bool.false_eq_true, if_false,
    List.nil_append]

/-- Evaluation on `twoCellSim`: the sample of the depth-2 cell
(index `1`) is recorded, not that of the shallower cell of negative entropy. -/
theorem twoCellSim_records_deeper :
    call linLog (fun x => x) (mk_ "crater_size_history.txt") twoCellSim = .ok
      { fname_ := "crater_size_history.txt"
        t_list_ := [7], r_list_ := [4], v_list_ := [25], x_list_ := [0], y_list_ := [-2] } := by
  norm_num [call, loop, GetMeshPoint, at_, record, entropy, Double.log10, Double.scale,
    Double.sub, Double.ltZero, linLog, twoCellSim, mk_, Vector2D.abs]

/-- C5 (amended): when the state has at least one cell, is index-aligned and no cell is
selectable, that is no cell has `y ≤ 0` together with an entropy that is `>= 0` or NaN,
the invocation still appends exactly one sample, that of cell index `0`:
`(time, |pos_0|, |velocity_0|, pos_0.x, pos_0.y)`. -/
theorem fallback_sentinel (log10 sqrt : α → α) (h : CraterSizeHistory α)
    (sim : hdsim α) (hal : sim.cells.length = sim.tess.length) (hne : sim.cells ≠ [])
    (hnone : ∀ (i : Nat) (c : ComputationalCell α) (r : Vector2D α),
      sim.cells[i]? = some c → sim.tess[i]? = some r →
      ¬ (r.y ≤ 0 ∧ ((entropy log10 c).geZero = true ∨ (entropy log10 c).isNaN = true))) :
    ∃ (c0 : ComputationalCell α) (r0 : Vector2D α),
      sim.cells[0]? = some c0 ∧ sim.tess[0]? = some r0 ∧
      call log10 sqrt h sim = .ok
        { fname_ := h.fname_
          t_list_ := h.t_list_ ++ [sim.time]
          r_list_ := h.r_list_ ++ [Vector2D.abs sqrt r0]
          v_list_ := h.v_list_ ++ [Vector2D.abs sqrt c0.velocity]
          x_list_ := h.x_list_ ++ [r0.x]
          y_list_ := h.y_list_ ++ [r0.y] } := by
  obtain ⟨i, c, r, hc, hr, hcall, hcase⟩ := call_spec log10 sqrt h sim hal hne
  rcases hcase with ⟨hi, _⟩ | ⟨hy, he, _⟩
  · subst hi
    exact ⟨c, r, hc, hr, hcall⟩
  · exact absurd ⟨hy, (ltZero_eq_false_iff _).mp he⟩ (hnone i c r hc hr)

/-- Witness of `fallback_sentinel`: in `noQualifyingSim` no cell is selectable and the
sample of cell `0`, at the mesh point `(1, 3)`, is recorded. -/
theorem fallback_sentinel_witness :
    noQualifyingSim.cells.length = noQualifyingSim.tess.length ∧
    noQualifyingSim.cells ≠ [] ∧
    ∃ (c0 : ComputationalCell ℚ) (r0 : Vector2D ℚ),
      noQualifyingSim.cells[0]? = some c0 ∧ noQualifyingSim.tess[0]? = some r0 ∧
      call linLog (fun x => x) (mk_ "crater_size_history.txt") noQualifyingSim = .ok
        { fname_ := "crater_size_history.txt"
          t_list_ := [] ++ [noQualifyingSim.time]
          r_list_ := [] ++ [Vector2D.abs (fun x => x) r0]
          v_list_ := [] ++ [Vector2D.abs (fun x => x) c0.velocity]
          x_list_ := [] ++ [r0.x]
          y_list_ := [] ++ [r0.y] } :=
  ⟨rfl, by simp [noQualifyingSim],
    fallback_sentinel linLog (fun x => x) (mk_ "crater_size_history.txt") noQualifyingSim
      rfl (by simp [noQualifyingSim]) (by
        intro i c r hc hr
        match i with
        | 0 =>
          simp [noQualifyingSim] at hr
          subst hr
          norm_num
        | 1 =>
          simp [noQualifyingSim] at hc
          subst hc
          norm_num [entropy, Double.log10, Double.scale, Double.sub, Double.geZero,
            Double.isNaN, linLog]
        | i + 2 => simp [noQualifyingSim] at hc)⟩

/-- C5 as stated fails, with the real `log10` and `sqrt`, on the state with a first
cell at the mesh point `(0, 1)`, above the reference line, and a second cell of
pressure `-1` and density `1` at depth `1`: no cell satisfies both filters (`y ≤ 0` and
entropy `>= 0`), yet the entropy of the second cell is NaN, the test `entropy < 0` is
false, and the sample of index `1` is recorded instead of that of index `0`. -/
theorem fallback_sentinel_counterexample :
    ¬ ((1 : ℝ) ≤ 0) ∧
    (entropy (Real.logb 10) (⟨1, -1, ⟨0, 0⟩⟩ : ComputationalCell ℝ)).geZero = false ∧
    call (Real.logb 10) Real.sqrt (mk_ "crater_size_history.txt")
        (⟨[⟨1, 1, ⟨0, 0⟩⟩, ⟨1, -1, ⟨0, 0⟩⟩], [⟨0, 1⟩, ⟨0, -1⟩], 7, 1⟩ : hdsim ℝ) =
      .ok { fname_ := "crater_size_history.txt"
            t_list_ := [7]
            r_list_ := [Real.sqrt (0 * 0 + -1 * -1)]
            v_list_ := [Real.sqrt (0 * 0 + 0 * 0)]
            x_list_ := [0]
            y_list_ := [-1] } := by
  have hent1 : entropy (Real.logb 10) (⟨1, -1, ⟨0, 0⟩⟩ : ComputationalCell ℝ) = .nan := by
    have hneg : ¬ ((0 : ℝ) < -1) := by norm_num
    simp [entropy, Double.log10, Double.scale, Double.sub, hneg]
  refine ⟨by norm_num, by simp [hent1, Double.geZero], ?_⟩
  have h1 : ((1 : ℝ) > 0) := by norm_num
  have h2 : ¬ ((-1 : ℝ) > 0) := by norm_num
  simp only [call, loop, GetMeshPoint, at_, record, mk_, Vector2D.abs,
    List.getElem?_cons_zero, List.getElem?_cons_succ, if_pos h1, if_neg h2, hent1,
    Double.ltZero, Bool.false_eq_true, if_false, List.nil_append]

/-- A sequence of invocations on non-empty, index-aligned states appends to each
buffer one list of as many entries as there are invocations. -/
theorem calls_spec (log10 sqrt : α → α) :
    ∀ (sims : List (hdsim α)) (h : CraterSizeHistory α),
      (∀ sim ∈ sims, sim.cells ≠ [] ∧ sim.cells.length = sim.tess.length) →
      ∃ ts rs vs xs ys : List α,
        ts.length = sims.length ∧ rs.length = sims.length ∧ vs.length = sims.length ∧
        xs.length = sims.length ∧ ys.length = sims.length ∧
        calls log10 sqrt h sims = .ok
          { fname_ := h.fname_
            t_list_ := h.t_list_ ++ ts
            r_list_ := h.r_list_ ++ rs
            v_list_ := h.v_list_ ++ vs
            x_list_ := h.x_list_ ++ xs
            y_list_ := h.y_list_ ++ ys } := by
  intro sims
  induction sims with
  | nil =>
    intro h _
    exact ⟨[], [], [], [], [], rfl, rfl, rfl, rfl, rfl, by simp [calls]⟩
  | cons sim rest ih =>
    intro h hgood
    obtain ⟨hne, hal⟩ := hgood sim (List.mem_cons_self _ _)
    obtain ⟨i, c, r, _, _, hcall, _⟩ := call_spec log10 sqrt h sim hal hne
    obtain ⟨ts, rs, vs, xs, ys, h1, h2, h3, h4, h5, hrun⟩ :=
      ih (record sqrt h r c sim.time) (fun s hs => hgood s (List.mem_cons_of_mem _ hs))
    refine ⟨sim.time :: ts, Vector2D.abs sqrt r :: rs, Vector2D.abs sqrt c.velocity :: vs,
      r.x :: xs, r.y :: ys, by simp [h1], by simp [h2], by simp [h3], by simp [h4],
      by simp [h5], ?_⟩
    simp only [calls, hcall]
    rw [hrun]
    simp [record]

/-- C10: an invocation on a state with at least one cell (index-aligned with the mesh
points) appends exactly one entry to each of the five buffers and leaves the earlier
entries as they are, in call order; any `N` such invocations extend every buffer by
exactly `N` entries behind the existing ones; and from the freshly constructed
diagnostic each of the five buffers has length exactly `N` after `N` invocations. -/
theorem buffer_length_invariant (log10 sqrt : α → α) :
    (∀ (h : CraterSizeHistory α) (sim : hdsim α),
      sim.cells ≠ [] → sim.cells.length = sim.tess.length →
      ∃ t r v x y : α, call log10 sqrt h sim = .ok
        { fname_ := h.fname_
          t_list_ := h.t_list_ ++ [t]
          r_list_ := h.r_list_ ++ [r]
          v_list_ := h.v_list_ ++ [v]
          x_list_ := h.x_list_ ++ [x]
          y_list_ := h.y_list_ ++ [y] }) ∧
    (∀ (h : CraterSizeHistory α) (sims : List (hdsim α)),
      (∀ sim ∈ sims, sim.cells ≠ [] ∧ sim.cells.length = sim.tess.length) →
      ∃ ts rs vs xs ys : List α,
        ts.length = sims.length ∧ rs.length = sims.length ∧ vs.length = sims.length ∧
        xs.length = sims.length ∧ ys.length = sims.length ∧
        calls log10 sqrt h sims = .ok
          { fname_ := h.fname_
            t_list_ := h.t_list_ ++ ts
            r_list_ := h.r_list_ ++ rs
            v_list_ := h.v_list_ ++ vs
            x_list_ := h.x_list_ ++ xs
            y_list_ := h.y_list_ ++ ys }) ∧
    (∀ (fname : String) (sims : List (hdsim α)),
      (∀ sim ∈ sims, sim.cells ≠ [] ∧ sim.cells.length = sim.tess.length) →
      ∃ h' : CraterSizeHistory α, calls log10 sqrt (mk_ fname) sims = .ok h' ∧
        h'.t_list_.length = sims.length ∧ h'.r_list_.length = sims.length ∧
        h'.v_list_.length = sims.length ∧ h'.x_list_.length = sims.length ∧
        h'.y_list_.length = sims.length) := by
  refine ⟨?_, fun h sims hgood => calls_spec log10 sqrt sims h hgood, ?_⟩
  · intro h sim hne hal
    obtain ⟨i, c, r, _, _, hcall, _⟩ := call_spec log10 sqrt h sim hal hne
    exact ⟨sim.time, Vector2D.abs sqrt r, Vector2D.abs sqrt c.velocity, r.x, r.y, hcall⟩
  · intro fname sims hgood
    obtain ⟨ts, rs, vs, xs, ys, h1, h2, h3, h4, h5, hrun⟩ :=
      calls_spec log10 sqrt sims (mk_ fname) hgood
    exact ⟨_, hrun, by simp [mk_, h1], by simp [mk_, h2], by simp [mk_, h3],
      by simp [mk_, h4], by simp [mk_, h5]⟩

/-- Witness of `buffer_length_invariant`: two invocations from the fresh diagnostic, on
`twoCellSim` and on `noQualifyingSim`, leave every buffer with two entries. -/
theorem buffer_length_invariant_witness :
    (∀ sim ∈ [twoCellSim, noQualifyingSim],
      sim.cells ≠ [] ∧ sim.cells.length = sim.tess.length) ∧
    ∃ h' : CraterSizeHistory ℚ,
      calls linLog (fun x => x) (mk_ "crater_size_history.txt")
        [twoCellSim, noQualifyingSim] = .ok h' ∧
      h'.t_list_.length = 2 ∧ h'.r_list_.length = 2 ∧ h'.v_list_.length = 2 ∧
      h'.x_list_.length = 2 ∧ h'.y_list_.length = 2 :=
  have hgood : ∀ sim ∈ [twoCellSim, noQualifyingSim],
      sim.cells ≠ [] ∧ sim.cells.length = sim.tess.length := by
    intro sim hs
    simp at hs
    rcases hs with rfl | rfl <;> simp [twoCellSim, noQualifyingSim]
  ⟨hgood, (buffer_length_invariant linLog (fun x => x)).2.2 "crater_size_history.txt"
    [twoCellSim, noQualifyingSim] hgood⟩

end CraterSizeHistory





/-! ## Theorems: seed-point generators -/

section GeneratorTheorems

variable {α : Type} [LinearOrderedField α] [FloorRing α]

/-- For a positive step, `k` is below the number of terms of `arange x_min x_max dx`
exactly when the `k`-th term `x_min + k * dx` is strictly below `x_max`. -/
theorem arange_count (x_min x_max dx : α) (hdx : 0 < dx) (k : Nat) :
    k < ⌈(x_max - x_min) / dx⌉₊ ↔ x_min + (k : α) * dx < x_max := by
  rw [Nat.lt_ceil, lt_div_iff₀ hdx]
  constructor <;> intro h <;> linarith

theorem arange_length (x_min x_max dx : α) :
    (arange x_min x_max dx).length = ⌈(x_max - x_min) / dx⌉₊ := by
  simp [arange]

theorem enumFrom_map_range' {β : Type} (g : Nat → β) :
    ∀ (n s : Nat), ((List.range' s n).map g).enumFrom s =
      (List.range' s n).map fun k => (k, g k) := by
  intro n
  induction n with
  | zero => intro s; rfl
  | succ n ih =>
    intro s
    simp only [List.range'_succ, List.map_cons, List.enumFrom_cons, ih (s + 1)]

/-- The ring of index `i` produced by the body of the outer loop of
`centered_hexagonal_grid`, for the radius `r`. -/
theorem hexagonal_eq_flatMap (cos sin : α → α) (pi r_min r_max : α) :
    centered_hexagonal_grid cos sin pi r_min r_max =
      (List.range ⌈r_max / r_min⌉₊).flatMap fun (i : Nat) =>
        (List.range (max (6 * i) 1)).map fun (j : Nat) =>
          Vector2D.smul ((i : α) * r_min)
            ⟨cos (2 * pi * (j : α) / ((max (6 * i) 1 : Nat) : α)),
             sin (2 * pi * (j : α) / ((max (6 * i) 1 : Nat) : α))⟩ := by
  simp only [centered_hexagonal_grid, arange, List.enum, sub_zero, zero_add]
  rw [List.range_eq_range', enumFrom_map_range', List.flatMap, List.flatMap, List.map_map]
  congr 1
  apply List.map_congr_left
  intro i _
  simp [List.map_map, Function.comp]

theorem sum_ring_sizes (n : Nat) :
    ((List.range (n + 1)).map fun i => max (6 * i) 1).sum = 1 + 6 * (List.range (n + 1)).sum ∧
    1 + 6 * (List.range (n + 1)).sum = 1 + 3 * (n + 1) * n := by
  induction n with
  | zero => simp [List.range_succ]
  | succ n ih =>
    obtain ⟨ih1, ih2⟩ := ih
    rw [List.range_succ, List.map_append, List.sum_append, List.sum_append, ih1]
    have hmax : max (6 * (n + 1)) 1 = 6 * (n + 1) := by omega
    simp only [List.map_cons, List.map_nil, List.sum_cons, List.sum_nil, hmax]
    constructor
    · ring
    · have : 1 + 6 * ((List.range (n + 1)).sum + (n + 1 + 0)) =
          (1 + 6 * (List.range (n + 1)).sum) + 6 * (n + 1) := by ring
      rw [this, ih2]
      ring

theorem hexagonal_length (cos sin : α → α) (pi r_min r_max : α) :
    (centered_hexagonal_grid cos sin pi r_min r_max).length =
      ((List.range ⌈r_max / r_min⌉₊).map fun i => max (6 * i) 1).sum := by
  rw [hexagonal_eq_flatMap, List.length_flatMap]
  congr 1
  apply List.map_congr_left
  intro i _
  simp

/-- C6: for `r_min > 0` and `r_max ≥ r_min`, with `n` the number of rings (the number of
`k ≥ 0` with `k * r_min < r_max`), `centered_hexagonal_grid(r_min, r_max)` has exactly
`1 + 6 * (0 + 1 + ... + (n - 1)) = 1 + 3 * n * (n - 1)` points, and `n ≥ 1`; in
particular `centered_hexagonal_grid(1, 3)` has exactly `19` points. -/
theorem hexagonal_point_count (cos sin : α → α) (pi r_min r_max : α)
    (hmin : 0 < r_min) (hmax : r_min ≤ r_max) :
    (∃ n : Nat, 1 ≤ n ∧ (∀ k : Nat, k < n ↔ (k : α) * r_min < r_max) ∧
      (centered_hexagonal_grid cos sin pi r_min r_max).length = 1 + 6 * (List.range n).sum ∧
      (centered_hexagonal_grid cos sin pi r_min r_max).length = 1 + 3 * n * (n - 1)) ∧
    (centered_hexagonal_grid cos sin pi 1 3).length = 19 := by
  constructor
  · have hcount : ∀ k : Nat, k < ⌈r_max / r_min⌉₊ ↔ (k : α) * r_min < r_max := by
      intro k
      have := arange_count 0 r_max r_min hmin k
      simpa using this
    have hpos : 0 < ⌈r_max / r_min⌉₊ := (hcount 0).mpr (by simpa using lt_of_lt_of_le hmin hmax)
    obtain ⟨m, hm⟩ : ∃ m, ⌈r_max / r_min⌉₊ = m + 1 := ⟨⌈r_max / r_min⌉₊ - 1, by omega⟩
    refine ⟨⌈r_max / r_min⌉₊, hpos, hcount, ?_, ?_⟩
    · rw [hexagonal_length, hm]
      exact (sum_ring_sizes m).1
    · rw [hexagonal_length, hm, (sum_ring_sizes m).1, (sum_ring_sizes m).2]
      simp
  · rw [hexagonal_length]
    have h3 : ⌈(3 : α) / 1⌉₊ = 3 := by
      rw [div_one]
      exact_mod_cast Nat.ceil_natCast (3 : Nat)
    rw [h3]
    decide

/-- Witness of `hexagonal_point_count` at `r_min = 1`, `r_max = 3` over `ℚ`, with
stand-ins for `cos` and `sin` (the count does not depend on them). -/
theorem hexagonal_point_count_witness :
    (0 : ℚ) < 1 ∧ (1 : ℚ) ≤ 3 ∧
    (∃ n : Nat, 1 ≤ n ∧ (∀ k : Nat, k < n ↔ (k : ℚ) * 1 < 3) ∧
      (centered_hexagonal_grid (fun x : ℚ => x) (fun x : ℚ => x) 3 1 3).length =
        1 + 6 * (List.range n).sum ∧
      (centered_hexagonal_grid (fun x : ℚ => x) (fun x : ℚ => x) 3 1 3).length =
        1 + 3 * n * (n - 1)) ∧
    (centered_hexagonal_grid (fun x : ℚ => x) (fun x : ℚ => x) 3 1 3).length = 19 :=
  ⟨by norm_num, by norm_num,
    hexagonal_point_count (fun x : ℚ => x) (fun x : ℚ => x) 3 1 3
      (by norm_num) (by norm_num)⟩

/-- The output of `centered_logarithmic_spiral` as one list over the indices of
`theta_list`. -/
theorem spiral_eq_map (log exp cos sin : α → α) (pi r_min r_max alpha : α)
    (center : Vector2D α) :
    centered_logarithmic_spiral log exp cos sin pi r_min r_max alpha center =
      (List.range ⌈log (r_max / r_min) / alpha / (2 * pi * alpha / (1 - 0.5 * alpha))⌉₊).map
        fun (k : Nat) =>
          Vector2D.add center
            (Vector2D.smul (r_min * exp (alpha * ((k : α) * (2 * pi * alpha / (1 - 0.5 * alpha)))))
              ⟨cos ((k : α) * (2 * pi * alpha / (1 - 0.5 * alpha))),
               sin ((k : α) * (2 * pi * alpha / (1 - 0.5 * alpha)))⟩) := by
  simp only [centered_logarithmic_spiral, arange, sub_zero, zero_add, List.map_map]
  rw [List.zip_map_left, List.zip_map_right, List.map_map, List.map_map]
  have hz : ∀ l : List Nat, l.zip l = l.map fun k => (k, k) := by
    intro l
    induction l with
    | nil => rfl
    | cons a l ih => simp [ih]
  rw [hz, List.map_map]
  rfl

end GeneratorTheorems



section RealGeneratorTheorems

/-- The norm of `rho * (cos a, sin a)` is `|rho|`. -/
theorem abs_smul_cos_sin (rho a : ℝ) :
    Vector2D.abs Real.sqrt (Vector2D.smul rho ⟨Real.cos a, Real.sin a⟩) = |rho| := by
  have h : rho * Real.cos a * (rho * Real.cos a) + rho * Real.sin a * (rho * Real.sin a)
      = rho ^ 2 := by
    have := Real.cos_sq_add_sin_sq a
    nlinarith [this]
  simp only [Vector2D.abs, Vector2D.smul, h]
  exact Real.sqrt_sq_eq_abs rho

theorem flatMap_congr_mem {β γ : Type} (l : List β) (f g : β → List γ)
    (h : ∀ b ∈ l, f b = g b) : l.flatMap f = l.flatMap g := by
  rw [List.flatMap, List.flatMap, List.map_congr_left h]

/-- Every point of `centered_hexagonal_grid` has norm strictly below `r_max`, for a
positive ring spacing. -/
theorem hexagonal_norm_lt (r_min r_max : ℝ) (hmin : 0 < r_min) :
    ∀ p ∈ centered_hexagonal_grid Real.cos Real.sin Real.pi r_min r_max,
      Vector2D.abs Real.sqrt p < r_max := by
  intro p hp
  rw [hexagonal_eq_flatMap, List.mem_flatMap] at hp
  obtain ⟨i, hi, hp⟩ := hp
  rw [List.mem_map] at hp
  obtain ⟨j, _, rfl⟩ := hp
  rw [abs_smul_cos_sin, abs_of_nonneg (by positivity)]
  have := (arange_count 0 r_max r_min hmin i).mp (by simpa using List.mem_range.mp hi)
  simpa using this

/-- C7: for `r_min > 0` and `r_max ≥ r_min` the output of `centered_hexagonal_grid` lists
the rings `k = 0, ..., n - 1` in increasing `k` (`n` the number of `k` with
`k * r_min < r_max`); ring `0` is the single point `(0, 0)`; for `k ≥ 1` ring `k`
consists of the points `k * r_min * (cos(2πj/(6k)), sin(2πj/(6k)))`, `0 ≤ j < 6k`, in
increasing `j`, each of norm exactly `k * r_min`; every output point has norm strictly
less than `r_max`. -/
theorem hexagonal_layout (r_min r_max : ℝ) (hmin : 0 < r_min) (hmax : r_min ≤ r_max) :
    ∃ n : ℕ, 1 ≤ n ∧ (∀ k : ℕ, k < n ↔ (k : ℝ) * r_min < r_max) ∧
      centered_hexagonal_grid Real.cos Real.sin Real.pi r_min r_max =
        (List.range n).flatMap (fun (k : ℕ) =>
          if k = 0 then [(⟨0, 0⟩ : Vector2D ℝ)]
          else (List.range (6 * k)).map (fun (j : ℕ) =>
            (⟨k * r_min * Real.cos (2 * Real.pi * j / (6 * k)),
              k * r_min * Real.sin (2 * Real.pi * j / (6 * k))⟩ : Vector2D ℝ))) ∧
      (∀ k j : ℕ, Vector2D.abs Real.sqrt
        ⟨k * r_min * Real.cos (2 * Real.pi * j / (6 * k)),
          k * r_min * Real.sin (2 * Real.pi * j / (6 * k))⟩ = k * r_min) ∧
      (∀ p ∈ centered_hexagonal_grid Real.cos Real.sin Real.pi r_min r_max,
        Vector2D.abs Real.sqrt p < r_max) := by
  have hcount : ∀ k : ℕ, k < ⌈r_max / r_min⌉₊ ↔ (k : ℝ) * r_min < r_max := by
    intro k
    have := arange_count 0 r_max r_min hmin k
    simpa using this
  have hpos : 0 < ⌈r_max / r_min⌉₊ := (hcount 0).mpr (by simpa using lt_of_lt_of_le hmin hmax)
  refine ⟨⌈r_max / r_min⌉₊, hpos, hcount, ?_, ?_, hexagonal_norm_lt r_min r_max hmin⟩
  · rw [hexagonal_eq_flatMap]
    apply flatMap_congr_mem
    intro k _
    by_cases hk : k = 0
    · subst hk
      simp [Vector2D.smul]
    · have hmax6 : max (6 * k) 1 = 6 * k := by omega
      rw [if_neg hk, hmax6]
      apply List.map_congr_left
      intro j _
      simp [Vector2D.smul]
  · intro k j
    have h := abs_smul_cos_sin ((k : ℝ) * r_min) (2 * Real.pi * j / (6 * k))
    rw [abs_of_nonneg (by positivity)] at h
    simpa [Vector2D.smul] using h

/-- Witness of `hexagonal_layout` at `r_min = 1`, `r_max = 3`. -/
theorem hexagonal_layout_witness :
    (0 : ℝ) < 1 ∧ (1 : ℝ) ≤ 3 ∧
    ∀ p ∈ centered_hexagonal_grid Real.cos Real.sin Real.pi 1 3,
      Vector2D.abs Real.sqrt p < 3 :=
  ⟨by norm_num, by norm_num,
    let ⟨_, _, _, _, _, h⟩ := hexagonal_layout 1 3 (by norm_num) (by norm_num)
    h⟩

/-- The spiral over `ℝ`: its `i`-th point exists exactly when
`theta_i = i * 2πα/(1 - α/2)` is below `theta_max`, and is then
`center + r_min * exp(α * theta_i) * (cos theta_i, sin theta_i)`. -/
theorem spiral_getElem (r_min r_max alpha : ℝ) (center : Vector2D ℝ)
    (ha0 : 0 < alpha) (ha2 : alpha < 2) (i : ℕ) (p : Vector2D ℝ) :
    (centered_logarithmic_spiral Real.log Real.exp Real.cos Real.sin Real.pi
        r_min r_max alpha center)[i]? = some p ↔
      ((i : ℝ) * (2 * Real.pi * alpha / (1 - alpha / 2)) < Real.log (r_max / r_min) / alpha ∧
        p = Vector2D.add center
          (Vector2D.smul
            (r_min * Real.exp (alpha * ((i : ℝ) * (2 * Real.pi * alpha / (1 - alpha / 2)))))
            ⟨Real.cos ((i : ℝ) * (2 * Real.pi * alpha / (1 - alpha / 2))),
             Real.sin ((i : ℝ) * (2 * Real.pi * alpha / (1 - alpha / 2)))⟩)) := by
  have hhalf : (1 : ℝ) - 0.5 * alpha = 1 - alpha / 2 := by norm_num; ring
  have hstep : 0 < 2 * Real.pi * alpha / (1 - alpha / 2) := by
    apply div_pos
    · have := Real.pi_pos
      positivity
    · linarith
  have hcount := arange_count 0 (Real.log (r_max / r_min) / alpha)
    (2 * Real.pi * alpha / (1 - alpha / 2)) hstep i
  simp only [sub_zero, zero_add] at hcount
  rw [spiral_eq_map, hhalf, List.getElem?_map]
  by_cases hi : i < ⌈Real.log (r_max / r_min) / alpha / (2 * Real.pi * alpha / (1 - alpha / 2))⌉₊
  · rw [List.getElem?_range hi]
    simp only [Option.map_some', Option.some.injEq]
    constructor
    · intro h
      exact ⟨hcount.mp hi, h.symm⟩
    · intro h
      exact h.2.symm
  · rw [List.getElem?_eq_none (by simpa using hi)]
    simp only [Option.map_none']
    constructor
    · intro h
      exact absurd h (by simp)
    · intro h
      exact absurd (hcount.mpr h.1) hi

/-- The distance from `center` of `center + rho * (cos a, sin a)` is `|rho|`. -/
theorem abs_sub_center (center : Vector2D ℝ) (rho a : ℝ) :
    Vector2D.abs Real.sqrt (Vector2D.sub
      (Vector2D.add center (Vector2D.smul rho ⟨Real.cos a, Real.sin a⟩)) center) = |rho| := by
  rw [← abs_smul_cos_sin rho a]
  simp [Vector2D.abs, Vector2D.sub, Vector2D.add, Vector2D.smul]

/-- Bounds on the radius `r_min * exp(α * θ)` of a spiral point with
`0 ≤ θ < ln(r_max / r_min) / α`. -/
theorem spiral_radius_bounds (r_min r_max alpha theta : ℝ) (hmin : 0 < r_min)
    (hmax : r_min ≤ r_max) (ha0 : 0 < alpha) (h0 : 0 ≤ theta)
    (hlt : theta < Real.log (r_max / r_min) / alpha) :
    r_min ≤ r_min * Real.exp (alpha * theta) ∧ r_min * Real.exp (alpha * theta) ≤ r_max := by
  constructor
  · have : 1 ≤ Real.exp (alpha * theta) := Real.one_le_exp (by positivity)
    nlinarith
  · have hpos : 0 < r_max / r_min := div_pos (lt_of_lt_of_le hmin hmax) hmin
    have h1 : alpha * theta < Real.log (r_max / r_min) := by
      have := (lt_div_iff₀ ha0).mp hlt
      linarith
    have h2 : Real.exp (alpha * theta) < r_max / r_min := by
      rw [← Real.exp_log hpos]
      exact Real.exp_lt_exp.mpr h1
    have h3 := (lt_div_iff₀ hmin).mp h2
    linarith

/-- C8: for `0 < r_min ≤ r_max`, `0 < alpha < 2` and every `center`, the `i`-th point of
`centered_logarithmic_spiral` is `center + r_min * exp(α θ_i) * (cos θ_i, sin θ_i)` with
`θ_i = i * 2πα / (1 - α/2)` and `θ_i < ln(r_max / r_min) / α`; its distance from
`center` equals `r_min * exp(α θ_i)` and lies in `[r_min, r_max]`; the distances are
non-decreasing with the index; and the output has a point of index `i` for exactly
the `i` with `θ_i < ln(r_max / r_min) / α`. -/
theorem spiral_radii (r_min r_max alpha : ℝ) (center : Vector2D ℝ)
    (hmin : 0 < r_min) (hmax : r_min ≤ r_max) (ha0 : 0 < alpha) (ha2 : alpha < 2) :
    (∀ (i : ℕ) (p : Vector2D ℝ),
      (centered_logarithmic_spiral Real.log Real.exp Real.cos Real.sin Real.pi
        r_min r_max alpha center)[i]? = some p →
      p = Vector2D.add center
          (Vector2D.smul
            (r_min * Real.exp (alpha * ((i : ℝ) * (2 * Real.pi * alpha / (1 - alpha / 2)))))
            ⟨Real.cos ((i : ℝ) * (2 * Real.pi * alpha / (1 - alpha / 2))),
             Real.sin ((i : ℝ) * (2 * Real.pi * alpha / (1 - alpha / 2)))⟩) ∧
      (i : ℝ) * (2 * Real.pi * alpha / (1 - alpha / 2)) < Real.log (r_max / r_min) / alpha ∧
      Vector2D.abs Real.sqrt (Vector2D.sub p center) =
        r_min * Real.exp (alpha * ((i : ℝ) * (2 * Real.pi * alpha / (1 - alpha / 2)))) ∧
      r_min ≤ Vector2D.abs Real.sqrt (Vector2D.sub p center) ∧
      Vector2D.abs Real.sqrt (Vector2D.sub p center) ≤ r_max) ∧
    (∀ (i j : ℕ) (p q : Vector2D ℝ), i ≤ j →
      (centered_logarithmic_spiral Real.log Real.exp Real.cos Real.sin Real.pi
        r_min r_max alpha center)[i]? = some p →
      (centered_logarithmic_spiral Real.log Real.exp Real.cos Real.sin Real.pi
        r_min r_max alpha center)[j]? = some q →
      Vector2D.abs Real.sqrt (Vector2D.sub p center) ≤
        Vector2D.abs Real.sqrt (Vector2D.sub q center)) ∧
    (∀ i : ℕ,
      i < (centered_logarithmic_spiral Real.log Real.exp Real.cos Real.sin Real.pi
        r_min r_max alpha center).length ↔
      (i : ℝ) * (2 * Real.pi * alpha / (1 - alpha / 2)) < Real.log (r_max / r_min) / alpha) := by
  have hstep : 0 < 2 * Real.pi * alpha / (1 - alpha / 2) := by
    apply div_pos
    · have := Real.pi_pos
      positivity
    · linarith
  have hdist : ∀ (i : ℕ) (p : Vector2D ℝ),
      (centered_logarithmic_spiral Real.log Real.exp Real.cos Real.sin Real.pi
        r_min r_max alpha center)[i]? = some p →
      Vector2D.abs Real.sqrt (Vector2D.sub p center) =
        r_min * Real.exp (alpha * ((i : ℝ) * (2 * Real.pi * alpha / (1 - alpha / 2)))) := by
    intro i p hp
    obtain ⟨_, rfl⟩ := (spiral_getElem r_min r_max alpha center ha0 ha2 i p).mp hp
    rw [abs_sub_center, abs_of_pos (mul_pos hmin (Real.exp_pos _))]
  refine ⟨?_, ?_, ?_⟩
  · intro i p hp
    obtain ⟨hlt, hpe⟩ := (spiral_getElem r_min r_max alpha center ha0 ha2 i p).mp hp
    have hb := spiral_radius_bounds r_min r_max alpha _ hmin hmax ha0
      (mul_nonneg (Nat.cast_nonneg i) hstep.le) hlt
    rw [hdist i p hp]
    exact ⟨hpe, hlt, rfl, hb.1, hb.2⟩
  · intro i j p q hij hp hq
    rw [hdist i p hp, hdist j q hq]
    have hcast : (i : ℝ) ≤ (j : ℝ) := Nat.cast_le.mpr hij
    have hth : alpha * ((i : ℝ) * (2 * Real.pi * alpha / (1 - alpha / 2))) ≤
        alpha * ((j : ℝ) * (2 * Real.pi * alpha / (1 - alpha / 2))) :=
      mul_le_mul_of_nonneg_left (mul_le_mul_of_nonneg_right hcast hstep.le) ha0.le
    exact mul_le_mul_of_nonneg_left (Real.exp_le_exp.mpr hth) hmin.le
  · intro i
    constructor
    · intro hi
      have hsome := List.getElem?_eq_getElem hi
      exact ((spiral_getElem r_min r_max alpha center ha0 ha2 i _).mp hsome).1
    · intro hlt
      have hsome := (spiral_getElem r_min r_max alpha center ha0 ha2 i _).mpr ⟨hlt, rfl⟩
      by_contra hi
      rw [List.getElem?_eq_none (by omega)] at hsome
      exact absurd hsome (by simp)

/-- Witness of `spiral_radii` at `r_min = 1`, `r_max = 3`, `alpha = 1`, centre `(0, 0)`. -/
theorem spiral_radii_witness :
    (0 : ℝ) < 1 ∧ (1 : ℝ) ≤ 3 ∧ (1 : ℝ) < 2 ∧
    ∀ (i : ℕ) (p : Vector2D ℝ),
      (centered_logarithmic_spiral Real.log Real.exp Real.cos Real.sin Real.pi
        1 3 1 ⟨0, 0⟩)[i]? = some p →
      1 ≤ Vector2D.abs Real.sqrt (Vector2D.sub p ⟨0, 0⟩) ∧
      Vector2D.abs Real.sqrt (Vector2D.sub p ⟨0, 0⟩) ≤ 3 :=
  ⟨by norm_num, by norm_num, by norm_num, fun i p hp =>
    let h := (spiral_radii 1 3 1 ⟨0, 0⟩ (by norm_num) (by norm_num) (by norm_num)
      (by norm_num)).1 i p hp
    ⟨h.2.2.2.1, h.2.2.2.2⟩⟩

/-- C9: for `r_inner > 0`, `r_outer ≥ r_inner` and `0 < alpha < 2`,
`complete_grid(r_inner, r_outer, alpha)` is
`centered_hexagonal_grid(r_inner * alpha * 2π, r_inner)` followed by
`centered_logarithmic_spiral(r_inner, r_outer, alpha, (0, 0))`, nothing removed; its
length is the sum of the two lengths; every point of the core part has norm at most
`r_inner` and every point of the halo part has norm at least `r_inner`. -/
theorem complete_grid_composition (r_inner r_outer alpha : ℝ)
    (hin : 0 < r_inner) (hout : r_inner ≤ r_outer) (ha0 : 0 < alpha) (ha2 : alpha < 2) :
    complete_grid Real.log Real.exp Real.cos Real.sin Real.pi r_inner r_outer alpha =
      centered_hexagonal_grid Real.cos Real.sin Real.pi (r_inner * alpha * 2 * Real.pi) r_inner ++
      centered_logarithmic_spiral Real.log Real.exp Real.cos Real.sin Real.pi
        r_inner r_outer alpha ⟨0, 0⟩ ∧
    (complete_grid Real.log Real.exp Real.cos Real.sin Real.pi r_inner r_outer alpha).length =
      (centered_hexagonal_grid Real.cos Real.sin Real.pi
        (r_inner * alpha * 2 * Real.pi) r_inner).length +
      (centered_logarithmic_spiral Real.log Real.exp Real.cos Real.sin Real.pi
        r_inner r_outer alpha ⟨0, 0⟩).length ∧
    (∀ p ∈ centered_hexagonal_grid Real.cos Real.sin Real.pi
        (r_inner * alpha * 2 * Real.pi) r_inner,
      Vector2D.abs Real.sqrt p ≤ r_inner) ∧
    (∀ p ∈ centered_logarithmic_spiral Real.log Real.exp Real.cos Real.sin Real.pi
        r_inner r_outer alpha ⟨0, 0⟩,
      r_inner ≤ Vector2D.abs Real.sqrt p) := by
  have hspacing : 0 < r_inner * alpha * 2 * Real.pi := by
    have := Real.pi_pos
    positivity
  refine ⟨rfl, by simp [complete_grid, join], ?_, ?_⟩
  · intro p hp
    exact (hexagonal_norm_lt _ r_inner hspacing p hp).le
  · intro p hp
    obtain ⟨i, hi, rfl⟩ := List.getElem_of_mem hp
    have hsome := List.getElem?_eq_getElem hi
    obtain ⟨hlt, hpe⟩ := (spiral_getElem r_inner r_outer alpha ⟨0, 0⟩ ha0 ha2 i _).mp hsome
    have hstep : 0 < 2 * Real.pi * alpha / (1 - alpha / 2) := by
      apply div_pos
      · have := Real.pi_pos
        positivity
      · linarith
    have hb := spiral_radius_bounds r_inner r_outer alpha _ hin hout ha0
      (mul_nonneg (Nat.cast_nonneg i) hstep.le) hlt
    have hnorm := abs_sub_center ⟨0, 0⟩
      (r_inner * Real.exp (alpha * ((i : ℝ) * (2 * Real.pi * alpha / (1 - alpha / 2)))))
      ((i : ℝ) * (2 * Real.pi * alpha / (1 - alpha / 2)))
    rw [← hpe, abs_of_pos (mul_pos hin (Real.exp_pos _))] at hnorm
    have hsub : Vector2D.sub
        (centered_logarithmic_spiral Real.log Real.exp Real.cos Real.sin Real.pi
          r_inner r_outer alpha ⟨0, 0⟩)[i] ⟨0, 0⟩ =
        (centered_logarithmic_spiral Real.log Real.exp Real.cos Real.sin Real.pi
          r_inner r_outer alpha ⟨0, 0⟩)[i] := by
      simp [Vector2D.sub]
    rw [hsub] at hnorm
    rw [hnorm]
    exact hb.1

/-- Witness of `complete_grid_composition` at the constants of `SimData`:
`r_inner = 0.1`, `r_outer = 4`, `alpha = 0.005`. -/
theorem complete_grid_composition_witness :
    (0 : ℝ) < 1 / 10 ∧ (1 / 10 : ℝ) ≤ 4 ∧ (0 : ℝ) < 1 / 200 ∧ (1 / 200 : ℝ) < 2 ∧
    (complete_grid Real.log Real.exp Real.cos Real.sin Real.pi (1 / 10) 4 (1 / 200)).length =
      (centered_hexagonal_grid Real.cos Real.sin Real.pi
        (1 / 10 * (1 / 200) * 2 * Real.pi) (1 / 10)).length +
      (centered_logarithmic_spiral Real.log Real.exp Real.cos Real.sin Real.pi
        (1 / 10) 4 (1 / 200) ⟨0, 0⟩).length :=
  ⟨by norm_num, by norm_num, by norm_num, by norm_num,
    (complete_grid_composition (1 / 10) 4 (1 / 200) (by norm_num) (by norm_num)
      (by norm_num) (by norm_num)).2.1⟩

end RealGeneratorTheorems




/-! ## Theorems: sequences of `ZenoIntervals` invocations -/

namespace ZenoIntervals

variable {α : Type} [LinearOrderedField α]

/-- One invocation on an index-aligned state, live or terminal: the trigger after the
call is the fired one exactly when `true` is returned, and `true` is returned only in
a live state with a cell under the current threshold. -/
theorem call_step (z : ZenoIntervals α) (sim : hdsim α)
    (hal : sim.cells.length = sim.tess.length) :
    ∃ b : Bool, z.call sim = .ok (b, if b then z.fired else z) ∧
      (b = true → z.counter_ ≤ z.gen_ ∧
        ∃ (i : Nat) (c : ComputationalCell α) (r : Vector2D α),
          sim.cells[i]? = some c ∧ sim.tess[i]? = some r ∧
          c.pressure > z.p_thres_ ∧ -r.y < z.initial_sep_ * z.q_ ^ z.counter_) := by
  by_cases hk : z.counter_ ≤ z.gen_
  · obtain ⟨b, hb, hiff⟩ := call_live z sim hk hal
    exact ⟨b, hb, fun h => ⟨hk, hiff.mp h⟩⟩
  · exact ⟨false, call_terminal z (Nat.lt_of_not_le hk) sim, by simp⟩

/-- A sequence of invocations on index-aligned states, for `gen_ + 1 < 2 ^ 64`: the
counter after the sequence is the counter before plus the number of `true` results,
it stays at most `gen_ + 1`, and the invocation of index `i`, when it returns `true`,
saw a cell under the threshold of the counter it was entered with. -/
theorem calls_run :
    ∀ (sims : List (hdsim α)) (z : ZenoIntervals α),
      z.gen_ + 1 < 2 ^ 64 → z.counter_ ≤ z.gen_ + 1 →
      (∀ sim ∈ sims, sim.cells.length = sim.tess.length) →
      ∃ bs : List Bool,
        z.calls sims = .ok (bs, { z with counter_ := z.counter_ + bs.count true }) ∧
        bs.length = sims.length ∧
        z.counter_ + bs.count true ≤ z.gen_ + 1 ∧
        ∀ (i : Nat) (sim : hdsim α), sims[i]? = some sim → bs[i]? = some true →
          ∃ (j : Nat) (c : ComputationalCell α) (r : Vector2D α),
            sim.cells[j]? = some c ∧ sim.tess[j]? = some r ∧ c.pressure > z.p_thres_ ∧
            -r.y < z.initial_sep_ * z.q_ ^ (z.counter_ + (bs.take i).count true) ∧
            z.counter_ + (bs.take i).count true ≤ z.gen_ := by
  intro sims
  induction sims with
  | nil =>
    intro z _ hc _
    exact ⟨[], by simp [calls], rfl, by simpa using hc, by simp⟩
  | cons sim rest ih =>
    intro z hgen hc hal
    obtain ⟨b, hb, hq⟩ := call_step z sim (hal sim (List.mem_cons_self _ _))
    have hrest : ∀ s ∈ rest, s.cells.length = s.tess.length :=
      fun s hs => hal s (List.mem_cons_of_mem _ hs)
    cases b with
    | false =>
      obtain ⟨bs, hrun, hlen, hle, hfire⟩ := ih z hgen hc hrest
      refine ⟨false :: bs, ?_, by simp [hlen], by simpa using hle, ?_⟩
      · simp only [calls, hb, Bool.false_eq_true, if_false, hrun]
        simp
      · intro i s hs hbi
        cases i with
        | zero => simp at hbi
        | succ i =>
          have := hfire i s (by simpa using hs) (by simpa using hbi)
          simpa using this
    | true =>
      obtain ⟨hk, hcell⟩ := hq rfl
      have hfired : z.fired = { z with counter_ := z.counter_ + 1 } := by
        simp only [fired, SIZE_MOD]
        rw [Nat.mod_eq_of_lt (by omega)]
      obtain ⟨bs, hrun, hlen, hle, hfire⟩ :=
        ih { z with counter_ := z.counter_ + 1 } hgen (by simpa using hk) hrest
      simp only at hrun hle hfire
      refine ⟨true :: bs, ?_, by simp [hlen], ?_, ?_⟩
      · simp only [calls, hb, if_true, hfired, hrun]
        simp [Nat.add_assoc, Nat.add_comm 1]
      · simp only [List.count_cons_self]
        omega
      · intro i s hs hbi
        cases i with
        | zero =>
          simp at hs
          subst hs
          obtain ⟨j, c, r, h1, h2, h3, h4⟩ := hcell
          exact ⟨j, c, r, h1, h2, h3, by simpa using h4, by simpa using hk⟩
        | succ i =>
          have := hfire i s (by simpa using hs) (by simpa using hbi)
          simpa [Nat.add_assoc, Nat.add_comm 1] using this

/-- With `gen_ = 2 ^ 64 - 1` no `size_t` counter exceeds the limit: on a state that has
a cell under every threshold each invocation fires, and after `n` invocations the
counter is `(counter_ + n) % 2 ^ 64`. -/
theorem calls_replicate_wrap (sim : hdsim α) (hal : sim.cells.length = sim.tess.length) :
    ∀ (n : Nat) (z : ZenoIntervals α), z.gen_ = 2 ^ 64 - 1 → z.counter_ < 2 ^ 64 →
      (∀ k : Nat, ∃ (i : Nat) (c : ComputationalCell α) (r : Vector2D α),
        sim.cells[i]? = some c ∧ sim.tess[i]? = some r ∧
        c.pressure > z.p_thres_ ∧ -r.y < z.initial_sep_ * z.q_ ^ k) →
      z.calls (List.replicate n sim) =
        .ok (List.replicate n true, { z with counter_ := (z.counter_ + n) % 2 ^ 64 }) := by
  intro n
  induction n with
  | zero =>
    intro z _ hc _
    have hmod : z.counter_ % 2 ^ 64 = z.counter_ := Nat.mod_eq_of_lt hc
    simp only [List.replicate_zero, calls, Nat.add_zero, hmod]
  | succ n ih =>
    intro z hg hc hq
    obtain ⟨b, hb, hiff⟩ := call_live z sim (by omega) hal
    have hbt : b = true := hiff.mpr (hq z.counter_)
    subst hbt
    have hc2 : (z.counter_ + 1) % 2 ^ 64 < 2 ^ 64 := Nat.mod_lt _ (by norm_num)
    have hrun := ih z.fired (by simpa [fired] using hg) (by simpa [fired, SIZE_MOD] using hc2)
      (by simpa [fired] using hq)
    simp only [List.replicate_succ, calls, hb, if_true, hrun]
    simp only [fired, SIZE_MOD]
    congr 3
    omega

/-- C11 (amended): for `gen_ + 1 < 2 ^ 64`, every trigger state reached from the initial
state (counter `0`) by a sequence of invocations on index-aligned simulation states has
a counter of at most `gen_ + 1`, and a further invocation never decreases the counter
and keeps it at most `gen_ + 1`. -/
theorem counter_bounded_monotone (gen : Nat) (q p_thres initial_sep : α)
    (hgen : gen + 1 < 2 ^ 64) (sims : List (hdsim α))
    (hal : ∀ sim ∈ sims, sim.cells.length = sim.tess.length) :
    ∃ (bs : List Bool) (z : ZenoIntervals α),
      (mk_ gen q p_thres initial_sep).calls sims = .ok (bs, z) ∧
      z.counter_ ≤ gen + 1 ∧
      ∀ sim : hdsim α, sim.cells.length = sim.tess.length →
        ∃ (b : Bool) (z' : ZenoIntervals α), z.call sim = .ok (b, z') ∧
          z.counter_ ≤ z'.counter_ ∧ z'.counter_ ≤ gen + 1 := by
  obtain ⟨bs, hrun, _, hle, _⟩ :=
    calls_run sims (mk_ gen q p_thres initial_sep) hgen (by simp [mk_]) hal
  refine ⟨bs, _, hrun, by simpa [mk_] using hle, ?_⟩
  intro sim hsim
  obtain ⟨b, hb, hq⟩ := call_step
    { mk_ gen q p_thres initial_sep with
      counter_ := (mk_ gen q p_thres initial_sep).counter_ + bs.count true } sim hsim
  refine ⟨b, _, hb, ?_⟩
  cases b with
  | false => simpa [mk_] using hle
  | true =>
    have hk := (hq rfl).1
    simp only [mk_, Nat.zero_add] at hk hle
    simp only [if_true, fired, SIZE_MOD, mk_, Nat.zero_add]
    rw [Nat.mod_eq_of_lt (by omega)]
    omega

/-- Witness of `counter_bounded_monotone`: the trigger of `main` on two states. -/
theorem counter_bounded_monotone_witness :
    20 + 1 < 2 ^ 64 ∧
    (∀ sim ∈ [shallowCellSim, aboveLineSim], sim.cells.length = sim.tess.length) ∧
    ∃ (bs : List Bool) (z : ZenoIntervals ℚ),
      (mk_ 20 (4 / 5 : ℚ) (1 / 100000) 1).calls [shallowCellSim, aboveLineSim] = .ok (bs, z) ∧
      z.counter_ ≤ 20 + 1 :=
  have hal : ∀ sim ∈ [shallowCellSim, aboveLineSim], sim.cells.length = sim.tess.length := by
    intro sim hs
    simp at hs
    rcases hs with rfl | rfl <;> rfl
  ⟨by norm_num, hal,
    let ⟨bs, z, h, hle, _⟩ := counter_bounded_monotone 20 (4 / 5 : ℚ) (1 / 100000) 1
      (by norm_num) [shallowCellSim, aboveLineSim] hal
    ⟨bs, z, h, hle⟩⟩

/-- C11 as stated fails twice. With `gen_ = 0` one qualifying invocation from the initial
state leaves the counter at `1`, above the limit `0`. With `gen_ = 2 ^ 64 - 1` the state
of counter `2 ^ 64 - 1` is reached by `2 ^ 64 - 1` qualifying invocations, and one more
invocation returns `true` and wraps the counter to `0`. -/
theorem counter_bounded_monotone_counterexample :
    ((mk_ 0 (1 / 2 : ℚ) 1 1).calls [⟨[⟨1, 2, ⟨0, 0⟩⟩], [⟨0, 0⟩], 0, 0⟩] =
        .ok ([true], ⟨0, 1 / 2, 1, 1, 1⟩) ∧
      ¬ ((⟨0, 1 / 2, 1, 1, 1⟩ : ZenoIntervals ℚ).counter_ ≤
        (⟨0, 1 / 2, 1, 1, 1⟩ : ZenoIntervals ℚ).gen_)) ∧
    ((mk_ 18446744073709551615 (1 : ℚ) 1 1).calls
        (List.replicate 18446744073709551615 ⟨[⟨1, 2, ⟨0, 0⟩⟩], [⟨0, 0⟩], 0, 0⟩) =
        .ok (List.replicate 18446744073709551615 true,
          ⟨18446744073709551615, 1, 1, 1, 18446744073709551615⟩) ∧
      (⟨18446744073709551615, 1, 1, 1, 18446744073709551615⟩ : ZenoIntervals ℚ).call
          ⟨[⟨1, 2, ⟨0, 0⟩⟩], [⟨0, 0⟩], 0, 0⟩ =
        .ok (true, ⟨18446744073709551615, 1, 1, 1, 0⟩) ∧
      (⟨18446744073709551615, 1, 1, 1, 0⟩ : ZenoIntervals ℚ).counter_ <
        (⟨18446744073709551615, 1, 1, 1, 18446744073709551615⟩ : ZenoIntervals ℚ).counter_) := by
  refine ⟨⟨?_, by simp⟩, ?_, ?_, by simp⟩
  · norm_num [calls, call, mk_, scan, GetMeshPoint, SIZE_MOD]
  · have h := calls_replicate_wrap (⟨[⟨1, 2, ⟨0, 0⟩⟩], [⟨0, 0⟩], 0, 0⟩ : hdsim ℚ) rfl
      18446744073709551615 (mk_ 18446744073709551615 (1 : ℚ) 1 1) (by norm_num [mk_])
      (by norm_num [mk_])
      (fun k => ⟨0, ⟨1, 2, ⟨0, 0⟩⟩, ⟨0, 0⟩, rfl, rfl, by norm_num [mk_], by norm_num [mk_]⟩)
    rw [h]
    norm_num [mk_]
  · norm_num [call, scan, GetMeshPoint, SIZE_MOD]

/-- On states that all have a cell under every threshold, with `gen_ + 1 < 2 ^ 64`: the
invocations return `true` until the counter is `gen_ + 1` and `false` from then on. -/
theorem calls_all_qualifying :
    ∀ (sims : List (hdsim α)) (z : ZenoIntervals α),
      z.gen_ + 1 < 2 ^ 64 → z.counter_ ≤ z.gen_ + 1 →
      (∀ sim ∈ sims, sim.cells.length = sim.tess.length ∧
        ∀ k : Nat, ∃ (i : Nat) (c : ComputationalCell α) (r : Vector2D α),
          sim.cells[i]? = some c ∧ sim.tess[i]? = some r ∧
          c.pressure > z.p_thres_ ∧ -r.y < z.initial_sep_ * z.q_ ^ k) →
      z.calls sims = .ok
        (List.replicate (min sims.length (z.gen_ + 1 - z.counter_)) true ++
          List.replicate (sims.length - (z.gen_ + 1 - z.counter_)) false,
         { z with counter_ := z.counter_ + min sims.length (z.gen_ + 1 - z.counter_) }) := by
  intro sims
  induction sims with
  | nil =>
    intro z _ _ _
    simp [calls]
  | cons sim rest ih =>
    intro z hgen hc hall
    by_cases hk : z.counter_ ≤ z.gen_
    · obtain ⟨hal, hq⟩ := hall sim (List.mem_cons_self _ _)
      obtain ⟨b, hb, hiff⟩ := call_live z sim hk hal
      have hbt : b = true := hiff.mpr (hq z.counter_)
      subst hbt
      have hfired : z.fired = { z with counter_ := z.counter_ + 1 } := by
        simp only [fired, SIZE_MOD]
        rw [Nat.mod_eq_of_lt (by omega)]
      have hrun := ih { z with counter_ := z.counter_ + 1 } hgen (by simpa using hk)
        (fun s hs => hall s (List.mem_cons_of_mem _ hs))
      simp only at hrun
      simp only [calls, hb, if_true, hfired, hrun, List.length_cons]
      have h1 : min (rest.length + 1) (z.gen_ + 1 - z.counter_) =
          min rest.length (z.gen_ + 1 - (z.counter_ + 1)) + 1 := by omega
      have h2 : rest.length + 1 - (z.gen_ + 1 - z.counter_) =
          rest.length - (z.gen_ + 1 - (z.counter_ + 1)) := by omega
      rw [h1, h2, List.replicate_succ]
      simp [Nat.add_assoc, Nat.add_comm 1]
    · have hterm : z.counter_ > z.gen_ := Nat.lt_of_not_le hk
      rw [calls_terminal z hterm]
      have h0 : z.gen_ + 1 - z.counter_ = 0 := by omega
      simp [h0]

/-- C17 (amended): for `gen + 1 < 2 ^ 64` and every finite sequence of invocations on
index-aligned states from the fresh trigger, at most `gen + 1` invocations return
`true`, and an invocation that returns `true` after `j` earlier fires has `j ≤ gen` and
saw a cell with pressure above the threshold and `-y < initial_sep * q ^ j`. The bound
is attained: with `initial_sep > 0` and `q > 0`, if every state has a cell with pressure
above the threshold at `y > 0`, exactly the first `gen + 1` invocations return `true`;
for `ZenoIntervals(20, 0.8, 1e-5, 1)` that is `min N 21` fires in `N` invocations. -/
theorem fires_at_most_limit_succ (gen : Nat) (q p_thres initial_sep : α)
    (hgen : gen + 1 < 2 ^ 64) (sims : List (hdsim α))
    (hal : ∀ sim ∈ sims, sim.cells.length = sim.tess.length) :
    (∃ (bs : List Bool) (z : ZenoIntervals α),
      (mk_ gen q p_thres initial_sep).calls sims = .ok (bs, z) ∧
      bs.length = sims.length ∧ bs.count true ≤ gen + 1 ∧
      ∀ (i : Nat) (sim : hdsim α), sims[i]? = some sim → bs[i]? = some true →
        (bs.take i).count true ≤ gen ∧
        ∃ (j : Nat) (c : ComputationalCell α) (r : Vector2D α),
          sim.cells[j]? = some c ∧ sim.tess[j]? = some r ∧ c.pressure > p_thres ∧
          -r.y < initial_sep * q ^ (bs.take i).count true) ∧
    (0 < initial_sep → 0 < q →
      (∀ sim ∈ sims, ∃ (i : Nat) (c : ComputationalCell α) (r : Vector2D α),
        sim.cells[i]? = some c ∧ sim.tess[i]? = some r ∧ c.pressure > p_thres ∧ r.y > 0) →
      ∃ z : ZenoIntervals α,
        (mk_ gen q p_thres initial_sep).calls sims = .ok
          (List.replicate (min sims.length (gen + 1)) true ++
            List.replicate (sims.length - (gen + 1)) false, z) ∧
        z.counter_ = min sims.length (gen + 1)) ∧
    ((∀ sim ∈ sims, ∃ (i : Nat) (c : ComputationalCell α) (r : Vector2D α),
        sim.cells[i]? = some c ∧ sim.tess[i]? = some r ∧
        c.pressure > 1 / 100000 ∧ r.y > 0) →
      ∃ (bs : List Bool) (z : ZenoIntervals α),
        (mk_ 20 (4 / 5 : α) (1 / 100000) 1).calls sims = .ok (bs, z) ∧
        bs.count true = min sims.length 21) := by
  have hattained : ∀ (g : Nat) (q' p' s' : α), g + 1 < 2 ^ 64 → 0 < s' → 0 < q' →
      (∀ sim ∈ sims, ∃ (i : Nat) (c : ComputationalCell α) (r : Vector2D α),
        sim.cells[i]? = some c ∧ sim.tess[i]? = some r ∧ c.pressure > p' ∧ r.y > 0) →
      (mk_ g q' p' s').calls sims = .ok
        (List.replicate (min sims.length (g + 1)) true ++
          List.replicate (sims.length - (g + 1)) false,
         { mk_ g q' p' s' with counter_ := min sims.length (g + 1) }) := by
    intro g q' p' s' hg hs hq' hcells
    have h := calls_all_qualifying sims (mk_ g q' p' s') hg (by simp [mk_])
      (fun sim hsim => ⟨hal sim hsim, fun k => by
        obtain ⟨i, c, r, h1, h2, h3, h4⟩ := hcells sim hsim
        have hpos : 0 < s' * q' ^ k := mul_pos hs (pow_pos hq' k)
        exact ⟨i, c, r, h1, h2, h3, by simp only [mk_]; linarith⟩⟩)
    simpa [mk_] using h
  refine ⟨?_, ?_, ?_⟩
  · obtain ⟨bs, hrun, hlen, hle, hfire⟩ :=
      calls_run sims (mk_ gen q p_thres initial_sep) hgen (by simp [mk_]) hal
    refine ⟨bs, _, hrun, hlen, by simpa [mk_] using hle, ?_⟩
    intro i sim hs hbi
    obtain ⟨j, c, r, h1, h2, h3, h4, h5⟩ := hfire i sim hs hbi
    exact ⟨by simpa [mk_] using h5, j, c, r, h1, h2, h3, by simpa [mk_] using h4⟩
  · intro hs hq hcells
    exact ⟨_, hattained gen q p_thres initial_sep hgen hs hq hcells, rfl⟩
  · intro hcells
    refine ⟨_, _, hattained 20 (4 / 5) (1 / 100000) 1 (by norm_num) (by norm_num)
      (by norm_num) hcells, ?_⟩
    simp [List.count_replicate]

/-- Witness of `fires_at_most_limit_succ`: the trigger of `main` on three states with a
cell of pressure `2` at `y = 1`. -/
theorem fires_at_most_limit_succ_witness :
    20 + 1 < 2 ^ 64 ∧
    (∀ sim ∈ [aboveLineSim, aboveLineSim, aboveLineSim],
      sim.cells.length = sim.tess.length) ∧
    ∃ (bs : List Bool) (z : ZenoIntervals ℚ),
      (mk_ 20 (4 / 5 : ℚ) (1 / 100000) 1).calls [aboveLineSim, aboveLineSim, aboveLineSim] =
        .ok (bs, z) ∧
      bs.length = 3 ∧ bs.count true ≤ 20 + 1 :=
  have hal : ∀ sim ∈ [aboveLineSim, aboveLineSim, aboveLineSim],
      sim.cells.length = sim.tess.length := by
    intro sim hs
    simp at hs
    subst hs
    rfl
  ⟨by norm_num, hal,
    let ⟨bs, z, h, hlen, hle, _⟩ := (fires_at_most_limit_succ 20 (4 / 5 : ℚ) (1 / 100000) 1
      (by norm_num) [aboveLineSim, aboveLineSim, aboveLineSim] hal).1
    ⟨bs, z, h, hlen, hle⟩⟩

/-- C17 as stated fails for the configuration `gen = 2 ^ 64 - 1`, `q = 1`,
`initial_sep = 1`: no `size_t` counter exceeds this limit, so on `2 ^ 64 + 1` states
with a cell of pressure `2` at `y = 1` every invocation returns `true`, which is more
than `gen + 1 = 2 ^ 64` fires. -/
theorem fires_at_most_limit_succ_counterexample :
    (0 : ℚ) < 1 ∧
    (mk_ 18446744073709551615 (1 : ℚ) 1 1).calls
        (List.replicate 18446744073709551617 ⟨[⟨1, 2, ⟨0, 0⟩⟩], [⟨0, 1⟩], 0, 0⟩) =
      .ok (List.replicate 18446744073709551617 true,
        ⟨18446744073709551615, 1, 1, 1, 1⟩) ∧
    (List.replicate 18446744073709551617 true).count true = 18446744073709551617 ∧
    ¬ (18446744073709551617 ≤ 18446744073709551615 + 1) := by
  refine ⟨by norm_num, ?_, List.count_replicate_self _ _, by norm_num⟩
  have h := calls_replicate_wrap (⟨[⟨1, 2, ⟨0, 0⟩⟩], [⟨0, 1⟩], 0, 0⟩ : hdsim ℚ) rfl
    18446744073709551617 (mk_ 18446744073709551615 (1 : ℚ) 1 1) (by norm_num [mk_])
    (by norm_num [mk_])
    (fun k => ⟨0, ⟨1, 2, ⟨0, 0⟩⟩, ⟨0, 1⟩, rfl, rfl, by norm_num [mk_], by norm_num [mk_]⟩)
  rw [h]
  norm_num [mk_]

/-- The existence of a cell under a threshold, over indices and over the list of the
`(cell, mesh point)` pairs. -/
theorem exists_index_iff_exists_mem_zip (sim : hdsim α) (p_thres len : α) :
    (∃ (i : Nat) (c : ComputationalCell α) (r : Vector2D α),
      sim.cells[i]? = some c ∧ sim.tess[i]? = some r ∧ c.pressure > p_thres ∧ -r.y < len) ↔
    ∃ x ∈ sim.cells.zip sim.tess, x.1.pressure > p_thres ∧ -x.2.y < len := by
  constructor
  · rintro ⟨i, c, r, hc, hr, hp⟩
    exact ⟨(c, r), List.mem_iff_getElem?.mpr ⟨i, List.getElem?_zip_eq_some.mpr ⟨hc, hr⟩⟩, hp⟩
  · rintro ⟨x, hx, hp⟩
    obtain ⟨i, hi⟩ := List.mem_iff_getElem?.mp hx
    obtain ⟨hc, hr⟩ := List.getElem?_zip_eq_some.mp hi
    exact ⟨i, x.1, x.2, hc, hr, hp⟩

theorem call_perm (z : ZenoIntervals α) (sim sim' : hdsim α)
    (hal : sim.cells.length = sim.tess.length) (hal' : sim'.cells.length = sim'.tess.length)
    (hperm : (sim'.cells.zip sim'.tess).Perm (sim.cells.zip sim.tess)) :
    z.call sim' = z.call sim := by
  by_cases hk : z.counter_ ≤ z.gen_
  · obtain ⟨b, hb, hiff⟩ := call_live z sim hk hal
    obtain ⟨b', hb', hiff'⟩ := call_live z sim' hk hal'
    rw [exists_index_iff_exists_mem_zip] at hiff hiff'
    have hbb : b' = b := by
      have : b' = true ↔ b = true := by
        rw [hiff, hiff']
        constructor
        · rintro ⟨x, hx, hp⟩
          exact ⟨x, hperm.mem_iff.mp hx, hp⟩
        · rintro ⟨x, hx, hp⟩
          exact ⟨x, hperm.mem_iff.mpr hx, hp⟩
      cases b <;> cases b' <;> simp_all
    rw [hb, hb', hbb]
  · have hterm : z.counter_ > z.gen_ := Nat.lt_of_not_le hk
    rw [call_terminal z hterm, call_terminal z hterm]

/-- C12: for every trigger state, applying the same permutation to the cell records and
to their index-aligned mesh positions changes neither the boolean returned by
`operator()` nor the resulting trigger (so not its counter): first for two aligned
states whose lists of `(cell, mesh point)` pairs are permutations of each other, then
for `n` cells and mesh positions both rearranged by one permutation `σ` of the
indices. -/
theorem order_independent (z : ZenoIntervals α) :
    (∀ sim sim' : hdsim α,
      sim.cells.length = sim.tess.length → sim'.cells.length = sim'.tess.length →
      (sim'.cells.zip sim'.tess).Perm (sim.cells.zip sim.tess) →
      z.call sim' = z.call sim) ∧
    (∀ (n : Nat) (cells : Fin n → ComputationalCell α) (pos : Fin n → Vector2D α)
      (σ : Equiv.Perm (Fin n)) (t : α) (cy : Nat),
      z.call ⟨List.ofFn (cells ∘ σ), List.ofFn (pos ∘ σ), t, cy⟩ =
        z.call ⟨List.ofFn cells, List.ofFn pos, t, cy⟩) := by
  refine ⟨call_perm z, ?_⟩
  intro n cells pos σ t cy
  have hzip : ∀ (f : Fin n → ComputationalCell α) (g : Fin n → Vector2D α),
      (List.ofFn f).zip (List.ofFn g) = List.ofFn fun i => (f i, g i) := by
    intro f g
    rw [List.ofFn_eq_map, List.ofFn_eq_map, List.ofFn_eq_map, List.zip_map']
  apply call_perm
  · simp
  · simp
  · simp only [hzip]
    exact σ.ofFn_comp_perm fun i => (cells i, pos i)

/-- Witness of `order_independent`: `twoCellSim` and the state with its two cells and
mesh points swapped. -/
theorem order_independent_witness :
    twoCellSim.cells.length = twoCellSim.tess.length ∧
    ((⟨[⟨1, 2, ⟨3, 4⟩⟩, ⟨2, 1, ⟨0, 0⟩⟩], [⟨0, -2⟩, ⟨0, -1⟩], 7, 1⟩ : hdsim ℚ).cells.zip
      (⟨[⟨1, 2, ⟨3, 4⟩⟩, ⟨2, 1, ⟨0, 0⟩⟩], [⟨0, -2⟩, ⟨0, -1⟩], 7, 1⟩ : hdsim ℚ).tess).Perm
      (twoCellSim.cells.zip twoCellSim.tess) ∧
    mainTrigger.call ⟨[⟨1, 2, ⟨3, 4⟩⟩, ⟨2, 1, ⟨0, 0⟩⟩], [⟨0, -2⟩, ⟨0, -1⟩], 7, 1⟩ =
      mainTrigger.call twoCellSim :=
  have hperm :
      ((⟨[⟨1, 2, ⟨3, 4⟩⟩, ⟨2, 1, ⟨0, 0⟩⟩], [⟨0, -2⟩, ⟨0, -1⟩], 7, 1⟩ : hdsim ℚ).cells.zip
        (⟨[⟨1, 2, ⟨3, 4⟩⟩, ⟨2, 1, ⟨0, 0⟩⟩], [⟨0, -2⟩, ⟨0, -1⟩], 7, 1⟩ : hdsim ℚ).tess).Perm
        (twoCellSim.cells.zip twoCellSim.tess) := List.Perm.swap _ _ _
  ⟨rfl, hperm, (order_independent mainTrigger).1 twoCellSim _ rfl rfl hperm⟩

/-- C18: for `0 < q < 1` and `initial_sep > 0` the threshold `initial_sep * q ^ k` is
strictly decreasing in the counter `k`; hence a cell that qualifies (pressure above
`p_thres` and `-y` below the threshold) at counter `k + 1` qualifies at counter `k`, and
a state on which the live trigger of counter `k'` returns `true` also makes the trigger
of every earlier counter `k ≤ k'` (same configuration) return `true`. -/
theorem thresholds_shrink (q initial_sep : α) (hq0 : 0 < q) (hq1 : q < 1)
    (hsep : 0 < initial_sep) :
    (∀ k : Nat, initial_sep * q ^ (k + 1) < initial_sep * q ^ k) ∧
    (∀ k k' : Nat, k < k' → initial_sep * q ^ k' < initial_sep * q ^ k) ∧
    (∀ (sim : hdsim α) (p_thres : α) (k : Nat),
      (∃ (i : Nat) (c : ComputationalCell α) (r : Vector2D α),
        sim.cells[i]? = some c ∧ sim.tess[i]? = some r ∧
        c.pressure > p_thres ∧ -r.y < initial_sep * q ^ (k + 1)) →
      ∃ (i : Nat) (c : ComputationalCell α) (r : Vector2D α),
        sim.cells[i]? = some c ∧ sim.tess[i]? = some r ∧
        c.pressure > p_thres ∧ -r.y < initial_sep * q ^ k) ∧
    (∀ (gen : Nat) (p_thres : α) (k k' : Nat) (sim : hdsim α) (z' : ZenoIntervals α),
      sim.cells.length = sim.tess.length → k ≤ k' → k' ≤ gen →
      (⟨gen, q, p_thres, initial_sep, k'⟩ : ZenoIntervals α).call sim = .ok (true, z') →
      ∃ z'' : ZenoIntervals α,
        (⟨gen, q, p_thres, initial_sep, k⟩ : ZenoIntervals α).call sim = .ok (true, z'')) := by
  have hstrict : ∀ k k' : Nat, k < k' → initial_sep * q ^ k' < initial_sep * q ^ k := by
    intro k k' hkk
    exact mul_lt_mul_of_pos_left (pow_lt_pow_right_of_lt_one₀ hq0 hq1 hkk) hsep
  refine ⟨fun k => hstrict k (k + 1) (Nat.lt_succ_self k), hstrict, ?_, ?_⟩
  · rintro sim p_thres k ⟨i, c, r, hc, hr, hp, hy⟩
    exact ⟨i, c, r, hc, hr, hp, lt_trans hy (hstrict k (k + 1) (Nat.lt_succ_self k))⟩
  · intro gen p_thres k k' sim z' hal hkk hk' hcall
    obtain ⟨b', hb', hiff'⟩ :=
      call_live (⟨gen, q, p_thres, initial_sep, k'⟩ : ZenoIntervals α) sim hk' hal
    obtain ⟨b, hb, hiff⟩ :=
      call_live (⟨gen, q, p_thres, initial_sep, k⟩ : ZenoIntervals α) sim (le_trans hkk hk') hal
    have hbt' : b' = true := by
      rw [hb'] at hcall
      simp only [Except.ok.injEq, Prod.mk.injEq] at hcall
      exact hcall.1
    obtain ⟨i, c, r, hc, hr, hp, hy⟩ := hiff'.mp hbt'
    have hle : initial_sep * q ^ k' ≤ initial_sep * q ^ k := by
      rcases Nat.eq_or_lt_of_le hkk with h | h
      · rw [h]
      · exact (hstrict k k' h).le
    have hbt : b = true := hiff.mpr ⟨i, c, r, hc, hr, hp, lt_of_lt_of_le hy hle⟩
    subst hbt
    exact ⟨_, hb⟩

/-- Witness of `thresholds_shrink` at `q = 0.8`, `initial_sep = 1`, the values of `main`. -/
theorem thresholds_shrink_witness :
    (0 : ℚ) < 4 / 5 ∧ (4 / 5 : ℚ) < 1 ∧ (0 : ℚ) < 1 ∧
    ∀ k : Nat, (1 : ℚ) * (4 / 5) ^ (k + 1) < 1 * (4 / 5) ^ k :=
  ⟨by norm_num, by norm_num, by norm_num,
    (thresholds_shrink (4 / 5 : ℚ) 1 (by norm_num) (by norm_num) (by norm_num)).1⟩

end ZenoIntervals







/-! ## Theorems: generator arguments outside the documented range -/

section GeneratorArguments

/-- C13 (amended): `centered_hexagonal_grid` validates nothing. For `r_min > 0` and
`r_max < r_min` it returns a point list instead of failing: the single point `(0, 0)`
when `0 < r_max`, the empty list when `r_max ≤ 0`. -/
theorem hexagonal_unvalidated {α : Type} [LinearOrderedField α] [FloorRing α]
    (cos sin : α → α) (pi r_min r_max : α) (hmin : 0 < r_min) (hlt : r_max < r_min) :
    (0 < r_max → centered_hexagonal_grid cos sin pi r_min r_max = [⟨0, 0⟩]) ∧
    (r_max ≤ 0 → centered_hexagonal_grid cos sin pi r_min r_max = []) := by
  constructor
  · intro hpos
    have hceil : ⌈r_max / r_min⌉₊ = 1 := by
      rw [Nat.ceil_eq_iff (by norm_num)]
      constructor
      · simpa using div_pos hpos hmin
      · simpa using ((div_le_one hmin).mpr hlt.le)
    rw [hexagonal_eq_flatMap, hceil]
    simp [Vector2D.smul, List.range_succ]
  · intro hneg
    have hceil : ⌈r_max / r_min⌉₊ = 0 :=
      Nat.ceil_eq_zero.mpr (div_nonpos_of_nonpos_of_nonneg hneg hmin.le)
    rw [hexagonal_eq_flatMap, hceil]
    simp

/-- Witness of `hexagonal_unvalidated` at `r_min = 1`, `r_max = 1/2` over `ℚ`. -/
theorem hexagonal_unvalidated_witness :
    (0 : ℚ) < 1 ∧ (1 / 2 : ℚ) < 1 ∧
    centered_hexagonal_grid (fun x : ℚ => x) (fun x : ℚ => x) 3 1 (1 / 2) = [⟨0, 0⟩] :=
  ⟨by norm_num, by norm_num,
    (hexagonal_unvalidated (fun x : ℚ => x) (fun x : ℚ => x) 3 1 (1 / 2)
      (by norm_num) (by norm_num)).1 (by norm_num)⟩

/-- C13 as stated fails at `r_min = 1`, `r_max = 1/2` (so `r_max < r_min`):
`centered_hexagonal_grid` returns the point list `[(0, 0)]`, no error. -/
theorem hexagonal_unvalidated_counterexample :
    (1 / 2 : ℝ) < 1 ∧
    centered_hexagonal_grid Real.cos Real.sin Real.pi 1 (1 / 2) = [⟨0, 0⟩] := by
  refine ⟨by norm_num, ?_⟩
  have hceil : ⌈(1 / 2 : ℝ) / 1⌉₊ = 1 := by
    rw [Nat.ceil_eq_iff (by norm_num)]
    norm_num
  rw [hexagonal_eq_flatMap, hceil]
  simp [Vector2D.smul, List.range_succ]

/-- C14 (amended): `centered_logarithmic_spiral` validates nothing. For `0 < alpha < 2`
and `0 < r_max < r_min` it returns the empty point list instead of failing, since
`theta_max = ln(r_max / r_min) / alpha` is negative. -/
theorem spiral_unvalidated (r_min r_max alpha : ℝ) (center : Vector2D ℝ)
    (hmax : 0 < r_max) (hlt : r_max < r_min) (ha0 : 0 < alpha) (ha2 : alpha < 2) :
    centered_logarithmic_spiral Real.log Real.exp Real.cos Real.sin Real.pi
      r_min r_max alpha center = [] := by
  have hmin : 0 < r_min := lt_trans hmax hlt
  have hlog : Real.log (r_max / r_min) < 0 :=
    Real.log_neg (div_pos hmax hmin) ((div_lt_one hmin).mpr hlt)
  have hstep : 0 < 2 * Real.pi * alpha / (1 - 0.5 * alpha) := by
    apply div_pos
    · have := Real.pi_pos
      positivity
    · norm_num
      linarith
  have hceil : ⌈Real.log (r_max / r_min) / alpha /
      (2 * Real.pi * alpha / (1 - 0.5 * alpha))⌉₊ = 0 := by
    apply Nat.ceil_eq_zero.mpr
    exact (div_neg_of_neg_of_pos (div_neg_of_neg_of_pos hlog ha0) hstep).le
  rw [spiral_eq_map, hceil]
  rfl

/-- Witness of `spiral_unvalidated` at `r_min = 2`, `r_max = 1`, `alpha = 1/2`. -/
theorem spiral_unvalidated_witness :
    (0 : ℝ) < 1 ∧ (1 : ℝ) < 2 ∧ (0 : ℝ) < 1 / 2 ∧ (1 / 2 : ℝ) < 2 ∧
    centered_logarithmic_spiral Real.log Real.exp Real.cos Real.sin Real.pi
      2 1 (1 / 2) ⟨0, 0⟩ = [] :=
  ⟨by norm_num, by norm_num, by norm_num, by norm_num,
    spiral_unvalidated 2 1 (1 / 2) ⟨0, 0⟩ (by norm_num) (by norm_num) (by norm_num)
      (by norm_num)⟩

/-- C14 as stated fails at `r_min = 2`, `r_max = 1`, `alpha = 1` (so `r_max < r_min`):
`centered_logarithmic_spiral` returns the empty point list, no error. -/
theorem spiral_unvalidated_counterexample :
    (1 : ℝ) < 2 ∧
    centered_logarithmic_spiral Real.log Real.exp Real.cos Real.sin Real.pi
      2 1 1 ⟨0, 0⟩ = [] := by
  refine ⟨by norm_num, ?_⟩
  have hlog : Real.log ((1 : ℝ) / 2) < 0 := Real.log_neg (by norm_num) (by norm_num)
  have hstep : 0 < 2 * Real.pi * 1 / (1 - 0.5 * (1 : ℝ)) := by
    apply div_pos
    · have := Real.pi_pos
      positivity
    · norm_num
  have hceil : ⌈Real.log ((1 : ℝ) / 2) / 1 / (2 * Real.pi * 1 / (1 - 0.5 * (1 : ℝ)))⌉₊ = 0 := by
    apply Nat.ceil_eq_zero.mpr
    exact (div_neg_of_neg_of_pos (div_neg_of_neg_of_pos hlog (by norm_num)) hstep).le
  rw [spiral_eq_map, hceil]
  rfl

end GeneratorArguments

/-! ## Theorems: `CraterSizeHistory`, errors, fallback depth and flush -/

namespace CraterSizeHistory

/-- The line of index `i` when all five buffers reach beyond `i`. -/
theorem line_of_lt (h : CraterSizeHistory α) (i : Nat)
    (ht : i < h.t_list_.length) (hr : i < h.r_list_.length) (hv : i < h.v_list_.length)
    (hx : i < h.x_list_.length) (hy : i < h.y_list_.length) :
    line h i = .ok [h.t_list_[i], h.r_list_[i], h.v_list_[i], h.x_list_[i], h.y_list_[i]] := by
  simp only [line, at_, List.getElem?_eq_getElem ht, List.getElem?_eq_getElem hr,
    List.getElem?_eq_getElem hv, List.getElem?_eq_getElem hx, List.getElem?_eq_getElem hy]

theorem flushLoop_of_lines (h : CraterSizeHistory α) (f : Nat → List α) :
    ∀ l : List Nat, (∀ i ∈ l, line h i = .ok (f i)) → flushLoop h l = .ok (l.map f) := by
  intro l
  induction l with
  | nil => intro _; rfl
  | cons i rest ih =>
    intro hl
    simp only [flushLoop, hl i (List.mem_cons_self _ _),
      ih (fun j hj => hl j (List.mem_cons_of_mem _ hj)), List.map_cons]

end CraterSizeHistory

namespace CraterSizeHistory

variable {α : Type} [LinearOrderedField α]

/-- The functional form `call` and the transition `invoke` agree: `call` returns the
object after a normal return of `invoke`, and the error of `invoke` otherwise. -/
theorem call_eq_invoke (log10 sqrt : α → α) (h : CraterSizeHistory α) (sim : hdsim α) :
    call log10 sqrt h sim =
      match (invoke log10 sqrt h sim).1 with
      | .ok _ => .ok (invoke log10 sqrt h sim).2
      | .error e => .error e := by
  simp only [call, invoke]
  cases loop log10 sim.tess sim.cells 0 0 0 with
  | error e => rfl
  | ok p =>
    obtain ⟨idx, m⟩ := p
    simp only
    cases GetMeshPoint sim.tess idx with
    | error e => rfl
    | ok r =>
      simp only
      cases at_ sim.cells idx with
      | error e => rfl
      | ok c => rfl

/-- C15: on a simulation state without cells `operator()` fails with the out-of-range
error of the checked access to index `0`, records no sample, and leaves the diagnostic
object, so all five buffers, exactly as it was before the invocation. -/
theorem empty_state_error (log10 sqrt : α → α) (h : CraterSizeHistory α) (sim : hdsim α)
    (hempty : sim.cells = []) :
    call log10 sqrt h sim = .error .out_of_range ∧
    invoke log10 sqrt h sim = (.error .out_of_range, h) ∧
    (invoke log10 sqrt h sim).2.t_list_ = h.t_list_ ∧
    (invoke log10 sqrt h sim).2.r_list_ = h.r_list_ ∧
    (invoke log10 sqrt h sim).2.v_list_ = h.v_list_ ∧
    (invoke log10 sqrt h sim).2.x_list_ = h.x_list_ ∧
    (invoke log10 sqrt h sim).2.y_list_ = h.y_list_ := by
  have hinv : invoke log10 sqrt h sim = (.error .out_of_range, h) := by
    simp only [invoke, hempty, loop, GetMeshPoint, at_]
    cases sim.tess[0]? with
    | none => rfl
    | some r => rfl
  refine ⟨?_, hinv, ?_, ?_, ?_, ?_, ?_⟩
  · rw [call_eq_invoke, hinv]
  all_goals rw [hinv]

/-- Witness of `empty_state_error`: the state without cells and mesh points, on a
diagnostic that already holds one sample. -/
theorem empty_state_error_witness :
    (⟨[], [], 0, 0⟩ : hdsim ℚ).cells = [] ∧
    invoke linLog (fun x => x) ⟨"crater_size_history.txt", [4], [25], [7], [0], [-2]⟩
        (⟨[], [], 0, 0⟩ : hdsim ℚ) =
      (.error .out_of_range, ⟨"crater_size_history.txt", [4], [25], [7], [0], [-2]⟩) :=
  ⟨rfl, (empty_state_error linLog (fun x => x)
    ⟨"crater_size_history.txt", [4], [25], [7], [0], [-2]⟩ (⟨[], [], 0, 0⟩ : hdsim ℚ) rfl).2.1⟩

/-- C19 (amended): on an index-aligned state with at least one cell exactly one `y` is
appended. Call a cell selectable when `y ≤ 0` and its entropy is `>= 0` or NaN (the
test `entropy < 0` is false). When some cell is selectable the appended `y` is the `y`
of a selectable cell, the least `y` among the selectable cells, hence at most `0`.
In the fallback (no selectable cell) it is the `y` of mesh point `0`, whatever its
sign. So the appended `y` is positive exactly when no cell is selectable and mesh
point `0` lies above the reference line. -/
theorem recorded_depth (log10 sqrt : α → α) (h : CraterSizeHistory α) (sim : hdsim α)
    (hal : sim.cells.length = sim.tess.length) (hne : sim.cells ≠ []) :
    ∃ (h' : CraterSizeHistory α) (y : α),
      call log10 sqrt h sim = .ok h' ∧ h'.y_list_ = h.y_list_ ++ [y] ∧
      ((∃ (i : Nat) (c : ComputationalCell α) (r : Vector2D α),
          sim.cells[i]? = some c ∧ sim.tess[i]? = some r ∧ r.y ≤ 0 ∧
          ((entropy log10 c).geZero = true ∨ (entropy log10 c).isNaN = true)) →
        y ≤ 0 ∧
        (∃ (i : Nat) (c : ComputationalCell α) (r : Vector2D α),
          sim.cells[i]? = some c ∧ sim.tess[i]? = some r ∧ r.y ≤ 0 ∧
          ((entropy log10 c).geZero = true ∨ (entropy log10 c).isNaN = true) ∧
          y = r.y) ∧
        ∀ (j : Nat) (c' : ComputationalCell α) (r' : Vector2D α),
          sim.cells[j]? = some c' → sim.tess[j]? = some r' → r'.y ≤ 0 →
          ((entropy log10 c').geZero = true ∨ (entropy log10 c').isNaN = true) →
          y ≤ r'.y) ∧
      ((∀ (i : Nat) (c : ComputationalCell α) (r : Vector2D α),
          sim.cells[i]? = some c → sim.tess[i]? = some r →
          ¬ (r.y ≤ 0 ∧
            ((entropy log10 c).geZero = true ∨ (entropy log10 c).isNaN = true))) →
        ∃ r0 : Vector2D α, sim.tess[0]? = some r0 ∧ y = r0.y) ∧
      (0 < y ↔
        ((∀ (i : Nat) (c : ComputationalCell α) (r : Vector2D α),
            sim.cells[i]? = some c → sim.tess[i]? = some r →
            ¬ (r.y ≤ 0 ∧
              ((entropy log10 c).geZero = true ∨ (entropy log10 c).isNaN = true))) ∧
          ∃ r0 : Vector2D α, sim.tess[0]? = some r0 ∧ y = r0.y ∧ 0 < r0.y)) := by
  obtain ⟨i, c, r, hc, hr, hcall, hcase⟩ := call_spec log10 sqrt h sim hal hne
  refine ⟨_, r.y, hcall, rfl, ?_, ?_, ?_⟩
  · rintro ⟨j, c', r', hc', hr', hy', he'⟩
    rcases hcase with ⟨_, hnone⟩ | ⟨hy, he, hmin⟩
    · exact absurd ⟨hy', (ltZero_eq_false_iff _).mpr he'⟩ (hnone j c' r' hc' hr')
    · refine ⟨hy, ⟨i, c, r, hc, hr, hy, (ltZero_eq_false_iff _).mp he, rfl⟩, ?_⟩
      intro k c'' r'' hc'' hr'' hy'' he''
      exact hmin k c'' r'' hc'' hr'' hy'' ((ltZero_eq_false_iff _).mpr he'')
  · intro hnone
    rcases hcase with ⟨hi, _⟩ | ⟨hy, he, _⟩
    · subst hi
      exact ⟨r, hr, rfl⟩
    · exact absurd ⟨hy, (ltZero_eq_false_iff _).mp he⟩ (hnone i c r hc hr)
  · constructor
    · intro hpos
      rcases hcase with ⟨hi, hnone⟩ | ⟨hy, _, _⟩
      · subst hi
        refine ⟨?_, r, hr, rfl, hpos⟩
        intro j c' r' hc' hr' hsel
        exact hnone j c' r' hc' hr' ⟨hsel.1, (ltZero_eq_false_iff _).mpr hsel.2⟩
      · exact absurd hy (not_le.mpr hpos)
    · rintro ⟨_, r0, _, hy0, hpos⟩
      rw [hy0]
      exact hpos

/-- Witness of `recorded_depth` on `noQualifyingSim`. -/
theorem recorded_depth_witness :
    noQualifyingSim.cells.length = noQualifyingSim.tess.length ∧
    noQualifyingSim.cells ≠ [] ∧
    ∃ (h' : CraterSizeHistory ℚ) (y : ℚ),
      call linLog (fun x => x) (mk_ "crater_size_history.txt") noQualifyingSim = .ok h' ∧
      h'.y_list_ = (mk_ "crater_size_history.txt" : CraterSizeHistory ℚ).y_list_ ++ [y] :=
  ⟨rfl, by simp [noQualifyingSim],
    let ⟨h', y, hcall, hy, _⟩ := recorded_depth linLog (fun x => x)
      (mk_ "crater_size_history.txt") noQualifyingSim rfl (by simp [noQualifyingSim])
    ⟨h', y, hcall, hy⟩⟩

/-- C19 as stated fails, with the real `log10` and `sqrt`, on a state with a first cell
at the mesh point `(1, 3)`, above the reference line, and a second cell at depth `1` of
entropy `log10 1 - 5/3 * log10 10 = -5/3`: neither cell qualifies, the sample of index
`0` is recorded, and the appended `y` is `3 > 0`. -/
theorem recorded_depth_counterexample :
    call (Real.logb 10) Real.sqrt (mk_ "crater_size_history.txt")
        (⟨[⟨1, 2, ⟨3, 4⟩⟩, ⟨10, 1, ⟨0, 0⟩⟩], [⟨1, 3⟩, ⟨0, -1⟩], 7, 1⟩ : hdsim ℝ) =
      .ok { fname_ := "crater_size_history.txt"
            t_list_ := [7]
            r_list_ := [Real.sqrt (1 * 1 + 3 * 3)]
            v_list_ := [Real.sqrt (3 * 3 + 4 * 4)]
            x_list_ := [1]
            y_list_ := [3] } ∧
    ¬ ((3 : ℝ) ≤ 0) := by
  refine ⟨?_, by norm_num⟩
  have hent : entropy (Real.logb 10) (⟨10, 1, ⟨0, 0⟩⟩ : ComputationalCell ℝ) =
      .finite (-(5 / 3)) := by
    rw [entropy_of_pos _ _ (by norm_num) (by norm_num)]
    simp only [Real.logb_one]
    rw [Real.logb_self_eq_one (by norm_num)]
    norm_num
  have hneg : (-(5 / 3) : ℝ) < 0 := by norm_num
  have h3 : ((3 : ℝ) > 0) := by norm_num
  have h1 : ¬ ((-1 : ℝ) > 0) := by norm_num
  simp only [call, loop, GetMeshPoint, at_, record, mk_, Vector2D.abs,
    List.getElem?_cons_zero, List.getElem?_cons_succ, if_pos h3, if_neg h1, hent,
    Double.ltZero, hneg, decide_True, if_true, List.nil_append]

/-- One invocation on a non-empty, index-aligned state records the sample of a mesh
point and a cell that do not depend on the diagnostic object. -/
theorem call_pick (log10 sqrt : α → α) (sim : hdsim α)
    (hal : sim.cells.length = sim.tess.length) (hne : sim.cells ≠ []) :
    ∃ (r : Vector2D α) (c : ComputationalCell α), ∀ h : CraterSizeHistory α,
      call log10 sqrt h sim = .ok (record sqrt h r c sim.time) := by
  obtain ⟨_, _, _, _, _, hcall, _⟩ := call_spec log10 sqrt (mk_ "") sim hal hne
  simp only [call] at hcall
  cases hl : loop log10 sim.tess sim.cells 0 0 0 with
  | error e => simp [hl] at hcall
  | ok p =>
    obtain ⟨idx, m⟩ := p
    simp only [hl] at hcall
    cases hg : GetMeshPoint sim.tess idx with
    | error e => simp [hg] at hcall
    | ok r =>
      simp only [hg] at hcall
      cases ha : at_ sim.cells idx with
      | error e => simp [ha] at hcall
      | ok c =>
        refine ⟨r, c, fun h => ?_⟩
        simp only [call, hl, hg, ha]

/-- A sequence of invocations on non-empty, index-aligned states appends, in call order,
the samples of one mesh point and cell per state. -/
theorem calls_picks (log10 sqrt : α → α) :
    ∀ (sims : List (hdsim α)) (h : CraterSizeHistory α),
      (∀ sim ∈ sims, sim.cells ≠ [] ∧ sim.cells.length = sim.tess.length) →
      ∃ picks : List (Vector2D α × ComputationalCell α),
        List.Forall₂ (fun sim pick => ∀ h0 : CraterSizeHistory α,
          call log10 sqrt h0 sim = .ok (record sqrt h0 pick.1 pick.2 sim.time)) sims picks ∧
        calls log10 sqrt h sims = .ok
          { fname_ := h.fname_
            t_list_ := h.t_list_ ++ sims.map fun sim => sim.time
            r_list_ := h.r_list_ ++ picks.map fun pick => Vector2D.abs sqrt pick.1
            v_list_ := h.v_list_ ++ picks.map fun pick => Vector2D.abs sqrt pick.2.velocity
            x_list_ := h.x_list_ ++ picks.map fun pick => pick.1.x
            y_list_ := h.y_list_ ++ picks.map fun pick => pick.1.y } := by
  intro sims
  induction sims with
  | nil =>
    intro h _
    exact ⟨[], List.Forall₂.nil, by simp [calls]⟩
  | cons sim rest ih =>
    intro h hgood
    obtain ⟨hne, hal⟩ := hgood sim (List.mem_cons_self _ _)
    obtain ⟨r, c, hpick⟩ := call_pick log10 sqrt sim hal hne
    obtain ⟨picks, hall, hrun⟩ :=
      ih (record sqrt h r c sim.time) (fun s hs => hgood s (List.mem_cons_of_mem _ hs))
    refine ⟨(r, c) :: picks, List.Forall₂.cons hpick hall, ?_⟩
    simp only [calls, hpick h]
    rw [hrun]
    simp [record]

/-- The destructor on buffers filled by invocations: one line per state, in call order,
holding the time of the state and the four values of its recorded sample. -/
theorem flush_of_picks (sqrt : α → α) (fname : String) :
    ∀ (sims : List (hdsim α)) (picks : List (Vector2D α × ComputationalCell α)),
      sims.length = picks.length →
      flush
        { fname_ := fname
          t_list_ := sims.map fun sim => sim.time
          r_list_ := picks.map fun pick => Vector2D.abs sqrt pick.1
          v_list_ := picks.map fun pick => Vector2D.abs sqrt pick.2.velocity
          x_list_ := picks.map fun pick => pick.1.x
          y_list_ := picks.map fun pick => pick.1.y } =
      .ok (List.zipWith (fun sim pick =>
        [sim.time, Vector2D.abs sqrt pick.1, Vector2D.abs sqrt pick.2.velocity,
          pick.1.x, pick.1.y]) sims picks) := by
  intro sims picks hlen
  have hflush := flushLoop_of_lines
    { fname_ := fname
      t_list_ := sims.map fun sim => sim.time
      r_list_ := picks.map fun pick => Vector2D.abs sqrt pick.1
      v_list_ := picks.map fun pick => Vector2D.abs sqrt pick.2.velocity
      x_list_ := picks.map fun pick => pick.1.x
      y_list_ := picks.map fun pick => pick.1.y }
    (fun i => [((sims.map fun sim => sim.time).getD i 0),
      ((picks.map fun pick => Vector2D.abs sqrt pick.1).getD i 0),
      ((picks.map fun pick => Vector2D.abs sqrt pick.2.velocity).getD i 0),
      ((picks.map fun pick => pick.1.x).getD i 0),
      ((picks.map fun pick => pick.1.y).getD i 0)])
    (List.range picks.length) (by
      intro i hi
      have hi2 : i < picks.length := List.mem_range.mp hi
      rw [line_of_lt _ i (by simp; omega) (by simpa using hi2) (by simpa using hi2)
        (by simpa using hi2) (by simpa using hi2)]
      simp [List.getD_eq_getElem?_getD, List.getElem?_eq_getElem, hi2, hlen])
  simp only [flush, List.length_map]
  rw [hflush]
  congr 1
  apply List.ext_getElem
  · simp [hlen]
  · intro n h1 h2
    have hn : n < picks.length := by simpa using h1
    simp [List.getD_eq_getElem?_getD, List.getElem?_eq_getElem, hn, hlen]

/-- C16: after `N` invocations from the fresh diagnostic (on index-aligned states with
at least one cell) the destructor writes exactly `N` lines; line `i` holds, in the
column order `time radius speed x y`, the five values recorded by the invocation of
index `i` (the time of its state, `|pos|`, `|velocity|`, `pos.x`, `pos.y` of the mesh
point and cell it selected), which are the entries of index `i` of the five buffers;
every line comes from a recorded sample. -/
theorem flush_lines (log10 sqrt : α → α) (fname : String) (sims : List (hdsim α))
    (hgood : ∀ sim ∈ sims, sim.cells ≠ [] ∧ sim.cells.length = sim.tess.length) :
    ∃ (h' : CraterSizeHistory α) (picks : List (Vector2D α × ComputationalCell α))
      (lines : List (List α)),
      calls log10 sqrt (mk_ fname) sims = .ok h' ∧
      List.Forall₂ (fun sim pick => ∀ h0 : CraterSizeHistory α,
        call log10 sqrt h0 sim = .ok (record sqrt h0 pick.1 pick.2 sim.time)) sims picks ∧
      flush h' = .ok lines ∧
      lines.length = sims.length ∧
      lines = List.zipWith (fun sim pick =>
        [sim.time, Vector2D.abs sqrt pick.1, Vector2D.abs sqrt pick.2.velocity,
          pick.1.x, pick.1.y]) sims picks ∧
      ∀ (i : Nat) (l : List α), lines[i]? = some l →
        ∃ t r v x y : α, h'.t_list_[i]? = some t ∧ h'.r_list_[i]? = some r ∧
          h'.v_list_[i]? = some v ∧ h'.x_list_[i]? = some x ∧ h'.y_list_[i]? = some y ∧
          l = [t, r, v, x, y] := by
  obtain ⟨picks, hall, hrun⟩ := calls_picks log10 sqrt sims (mk_ fname) hgood
  have hlen : sims.length = picks.length := hall.length_eq
  simp only [mk_, List.nil_append] at hrun
  refine ⟨_, picks, _, by simpa [mk_] using hrun, hall,
    flush_of_picks sqrt fname sims picks hlen, by simp [hlen], rfl, ?_⟩
  intro i l hl
  obtain ⟨sim, pick, hs, hp, rfl⟩ := List.getElem?_zipWith_eq_some.mp hl
  exact ⟨_, _, _, _, _, by simp [hs], by simp [hp], by simp [hp], by simp [hp],
    by simp [hp], rfl⟩

/-- Witness of `flush_lines`: two invocations, on `twoCellSim` and `noQualifyingSim`. -/
theorem flush_lines_witness :
    (∀ sim ∈ [twoCellSim, noQualifyingSim],
      sim.cells ≠ [] ∧ sim.cells.length = sim.tess.length) ∧
    ∃ (h' : CraterSizeHistory ℚ) (lines : List (List ℚ)),
      calls linLog (fun x => x) (mk_ "crater_size_history.txt")
        [twoCellSim, noQualifyingSim] = .ok h' ∧
      flush h' = .ok lines ∧ lines.length = 2 :=
  have hgood : ∀ sim ∈ [twoCellSim, noQualifyingSim],
      sim.cells ≠ [] ∧ sim.cells.length = sim.tess.length := by
    intro sim hs
    simp at hs
    rcases hs with rfl | rfl <;> simp [twoCellSim, noQualifyingSim]
  ⟨hgood,
    let ⟨h', _, lines, hrun, _, hflush, hlen, _⟩ := flush_lines linLog (fun x => x)
      "crater_size_history.txt" [twoCellSim, noQualifyingSim] hgood
    ⟨h', lines, hrun, hflush, hlen⟩⟩

/-- Evaluation of the destructor after the two invocations of the witness: two lines,
`7 4 25 0 -2` and `7 10 25 1 3` (with the identity in place of `sqrt`). -/
theorem flush_two_samples :
    flush (⟨"crater_size_history.txt", [4, 10], [25, 25], [7, 7], [0, 1], [-2, 3]⟩ :
      CraterSizeHistory ℚ) = .ok [[7, 4, 25, 0, -2], [7, 10, 25, 1, 3]] := by
  simp [flush, flushLoop, line, at_, List.range_succ]

end CraterSizeHistory




/-! ## Theorems: `SimData` -/

section SimDataTheorems

/-- C20: without `RICH_MPI` the constructor of `SimData` seeds the mesh with
`complete_grid(0.1, 2 * width_, 0.005) = complete_grid(0.1, 4, 0.005)` clipped to the
rectangle `[-2, 2] x [-2, 2]` (every seed point passes the membership test of the
rectangle); the circumscribed radius `|(2, 2)| = 2 * sqrt 2` of the rectangle does not
exceed `r_outer = 4`, `0 < alpha < 2`, `0 < r_inner ≤ r_outer`, and the core ring spacing
`r_inner * alpha * 2π` is positive and smaller than `r_inner`. -/
theorem seeding_preconditions
    (RightRectangle : Vector2D ℝ → Vector2D ℝ → Vector2D ℝ → Bool) :
    SimData.init_points RightRectangle Real.log Real.exp Real.cos Real.sin Real.pi =
      clip_grid (RightRectangle ⟨-2, -2⟩ ⟨2, 2⟩)
        (complete_grid Real.log Real.exp Real.cos Real.sin Real.pi (1 / 10) 4 (1 / 200)) ∧
    (∀ p ∈ SimData.init_points RightRectangle Real.log Real.exp Real.cos Real.sin Real.pi,
      RightRectangle ⟨-2, -2⟩ ⟨2, 2⟩ p = true ∧
      p ∈ complete_grid Real.log Real.exp Real.cos Real.sin Real.pi (1 / 10) 4 (1 / 200)) ∧
    Vector2D.abs Real.sqrt (⟨SimData.width_, SimData.width_⟩ : Vector2D ℝ) =
      2 * Real.sqrt 2 ∧
    2 * Real.sqrt 2 ≤ 2 * (SimData.width_ : ℝ) ∧
    2 * (SimData.width_ : ℝ) = 4 ∧
    (0 : ℝ) < 1 / 200 ∧ (1 / 200 : ℝ) < 2 ∧
    (0 : ℝ) < 1 / 10 ∧ (1 / 10 : ℝ) ≤ 4 ∧
    0 < (1 / 10 : ℝ) * (1 / 200) * 2 * Real.pi ∧
    (1 / 10 : ℝ) * (1 / 200) * 2 * Real.pi < 1 / 10 := by
  have hdef : SimData.init_points RightRectangle Real.log Real.exp Real.cos Real.sin Real.pi =
      clip_grid (RightRectangle ⟨-2, -2⟩ ⟨2, 2⟩)
        (complete_grid Real.log Real.exp Real.cos Real.sin Real.pi (1 / 10) 4 (1 / 200)) := by
    simp only [SimData.init_points, SimData.width_]
    norm_num
  have hsqrt8 : Real.sqrt (2 * 2 + 2 * 2) = 2 * Real.sqrt 2 := by
    rw [show (2 * 2 + 2 * 2 : ℝ) = 2 ^ 2 * 2 by norm_num, Real.sqrt_mul (by positivity),
      Real.sqrt_sq (by norm_num)]
  have hsqrt2 : Real.sqrt 2 ≤ 2 := by
    rw [Real.sqrt_le_iff]
    norm_num
  have hpi := Real.pi_pos
  have hpi4 := Real.pi_le_four
  refine ⟨hdef, ?_, ?_, ?_, ?_, by norm_num, by norm_num, by norm_num, by norm_num,
    by positivity, by linarith⟩
  · intro p hp
    rw [hdef] at hp
    simp only [clip_grid, List.mem_filter] at hp
    exact ⟨hp.2, hp.1⟩
  · simp only [Vector2D.abs, SimData.width_]
    exact hsqrt8
  · simp only [SimData.width_]
    linarith
  · simp only [SimData.width_]
    norm_num

end SimDataTheorems

end Rich
